import Mathlib

/-!
Verification development for the SRI electronic-invoicing engine.

The definitions below are shallow embeddings of the TypeScript sources:

* `ClaveAcceso`   — `src/modules/xml/clave-acceso.service.ts` (`ClaveAccesoService`)
* `InvoiceXml`    — `InvoiceXMLBuilder` in the SRI connector module
* `C14N`          — the `SRIC14N` canonicalization engine
* `Signer`        — `SRIXmlSigner` / `XAdESSignatureService` signature assembly
* `Connector`     — `SRIConnectorService` submission / polling state machine

JS strings are modelled by Lean `String` (treated as their character list via
`String.data`); JS numbers that only ever hold nonnegative integers are
modelled by `Nat`.  Randomness (the 8-digit nonce, generated element ids) is
passed in as an explicit argument.  Remote calls are modelled by an argument
giving the outcome of each attempt.
-/

namespace ClaveAcceso

/-- ASCII decimal digit character for a value below 10 (how JS renders one
digit of a number). -/
def digitChar (d : Nat) : Char := Char.ofNat (48 + d)

/-- Numeric value of an ASCII digit character: JS `parseInt` applied to one
character of a digit-only string. -/
def digitVal (c : Char) : Nat := c.toNat - 48

/-- Helper for `natToString`: structural recursion on a fuel bound so the
definition evaluates by kernel reduction.  `natToString` always supplies
enough fuel, so the fuel-0 arm is unreachable. -/
def natToStringAux (fuel : Nat) (n : Nat) : String :=
  match fuel with
  | 0 => ""
  | fuel + 1 =>
    if n < 10 then ⟨[digitChar n]⟩
    else natToStringAux fuel (n / 10) ++ ⟨[digitChar (n % 10)]⟩

/-- JS `Number.prototype.toString` (base 10) for a nonnegative integer:
decimal digits, most significant first, no padding. -/
def natToString (n : Nat) : String := natToStringAux (n + 1) n

/-- Any sufficient fuel computes the same string, so `natToString` satisfies
the expected recursion. -/
theorem natToStringAux_fuel (n f : Nat) (h : n < f) :
    natToStringAux f n = natToString n := by
  induction n using Nat.strong_induction_on generalizing f with
  | _ n ih =>
    match f with
    | 0 => omega
    | f + 1 =>
      by_cases h10 : n < 10
      · simp [natToStringAux, natToString, h10]
      · have hdiv : n / 10 < n := Nat.div_lt_self (by omega) (by omega)
        simp only [natToStringAux, natToString, if_neg h10]
        rw [ih (n / 10) hdiv f (by omega), ih (n / 10) hdiv n hdiv]

/-- Recursion equation for `natToString`. -/
theorem natToString_eq (n : Nat) :
    natToString n =
      if n < 10 then ⟨[digitChar n]⟩
      else natToString (n / 10) ++ ⟨[digitChar (n % 10)]⟩ := by
  by_cases h10 : n < 10
  · simp [natToString, natToStringAux, h10]
  · have hdiv : n / 10 < n := Nat.div_lt_self (by omega) (by omega)
    have h1 : natToString n =
        natToStringAux n (n / 10) ++ ⟨[digitChar (n % 10)]⟩ := by
      show natToStringAux (n + 1) n = _
      simp [natToStringAux, h10]
    rw [h1, natToStringAux_fuel (n / 10) n hdiv, if_neg h10]

/-- The 48 multiplicadores of `ClaveAccesoService.calcularModulo11`
(source line 197): 7,6,5,4,3,2 repeated left-to-right. -/
def multiplicadores : List Nat :=
  [7, 6, 5, 4, 3, 2, 7, 6, 5, 4, 3, 2, 7, 6, 5, 4, 3, 2, 7, 6, 5, 4, 3, 2,
   7, 6, 5, 4, 3, 2, 7, 6, 5, 4, 3, 2, 7, 6, 5, 4, 3, 2, 7, 6, 5, 4, 3, 2]

/-- The accumulation loop of `calcularModulo11`:
`suma += parseInt(clave[i]) * multiplicadores[i]`, scanning left to right
starting at index `i`. -/
def claveSuma : List Char → Nat → Nat
  | [], _ => 0
  | c :: rest, i => digitVal c * multiplicadores.getD i 0 + claveSuma rest (i + 1)

/-- Check-digit mapping of `calcularModulo11`: `residuo = suma % 11`;
`dv = 11 - residuo`; special cases 11 ↦ 0 and 10 ↦ 1. -/
def dvOfSuma (suma : Nat) : Nat :=
  let residuo := suma % 11
  let dv := 11 - residuo
  if dv = 11 then 0 else if dv = 10 then 1 else dv

/-- `ClaveAccesoService.calcularModulo11`.  The `none` result models the
throw on input whose length is not exactly 48. -/
def calcularModulo11 (clave : String) : Option String :=
  if clave.length = 48 then
    some (natToString (dvOfSuma (claveSuma clave.data 0)))
  else none

/-- `ClaveAccesoService.validate`: length 49, digits only, and the last
character equals the recomputed check digit of the first 48. -/
def validate (claveAcceso : String) : Bool :=
  if claveAcceso.length ≠ 49 then false
  else if ¬ claveAcceso.data.all (fun c => c.isDigit) then false
  else
    match calcularModulo11 ⟨claveAcceso.data.take 48⟩ with
    | some digitoCalculado =>
      (⟨claveAcceso.data.drop 48⟩ : String) == digitoCalculado
    | none => false

/-- Resolved calendar components of the JS `Date` held in
`params.fechaEmision`: the values of `getDate()`, `getMonth() + 1` and
`getFullYear()` used by `formatFecha`. -/
structure FechaParts where
  dia : Nat
  mes : Nat
  anio : Nat
deriving DecidableEq

/-- Input record `ClaveAccesoParams` of `clave-acceso.service.ts`. -/
structure ClaveAccesoParams where
  fechaEmision : FechaParts
  tipoComprobante : String
  ruc : String
  ambiente : Nat
  establecimiento : String
  puntoEmision : String
  secuencial : String
  tipoEmision : Nat
deriving DecidableEq

/-- JS `String.prototype.padStart(n, c)`. -/
def padStart (s : String) (n : Nat) (c : Char) : String :=
  if n ≤ s.length then s else ⟨List.replicate (n - s.length) c ++ s.data⟩

/-- Two-digit zero padding used for day and month in `formatFecha`. -/
def pad2 (n : Nat) : String := padStart (natToString n) 2 '0'

/-- `ClaveAccesoService.formatFecha` on the resolved date components:
`dia + mes + año` with two-digit day and month and the year rendered as is. -/
def formatFecha (f : FechaParts) : String :=
  pad2 f.dia ++ pad2 f.mes ++ natToString f.anio

/-- JS `parseInt` on the strings fed to it here: value of the leading run of
decimal digits, `none` (NaN) when there is no leading digit. -/
def jsParseInt (s : String) : Option Nat :=
  let digits := s.data.takeWhile (fun c => c.isDigit)
  if digits = [] then none
  else some (digits.foldl (fun acc c => acc * 10 + digitVal c) 0)

/-- `ClaveAccesoService.validateParams`: the accumulated list of violation
messages; the empty list means the parameter set is accepted. -/
def validateParams (p : ClaveAccesoParams) : List String :=
  (if p.ruc.length = 13 ∧ (p.ruc.data.take 10).all (fun c => c.isDigit) ∧
      p.ruc.data.drop 10 = ['0', '0', '1'] then []
   else ["RUC debe tener formato segun XSD"]) ++
  (if natToString p.ambiente = "1" ∨ natToString p.ambiente = "2" then []
   else ["Ambiente debe ser 1 o 2 segun XSD"]) ++
  (if natToString p.tipoEmision = "1" ∨ natToString p.tipoEmision = "2" then []
   else ["Tipo emision debe ser 1 o 2 segun XSD"]) ++
  (if p.establecimiento.length = 3 ∧
      p.establecimiento.data.all (fun c => c.isDigit) then []
   else ["Establecimiento debe tener exactamente 3 digitos segun XSD"]) ++
  (if p.puntoEmision.length = 3 ∧
      p.puntoEmision.data.all (fun c => c.isDigit) then []
   else ["Punto emision debe tener exactamente 3 digitos segun XSD"]) ++
  (match jsParseInt p.secuencial with
   | none => ["Secuencial debe ser un numero valido entre 1 y 999999999"]
   | some n =>
     if n = 0 ∨ n > 999999999 then
       ["Secuencial debe ser un numero valido entre 1 y 999999999"]
     else []) ++
  (if p.tipoComprobante = "01" ∨ p.tipoComprobante = "03" ∨
      p.tipoComprobante = "04" ∨ p.tipoComprobante = "05" ∨
      p.tipoComprobante = "06" ∨ p.tipoComprobante = "07" then []
   else ["Tipo comprobante debe ser uno de los validos"])

/-- The 48-character concatenation built inside `generate`:
fecha + tipoComprobante + ruc + ambiente + establecimiento + puntoEmision +
secuencial + codigoNumerico + tipoEmision, each padded as in the source. -/
def claveSinDigito (p : ClaveAccesoParams) (codigoNumerico : Nat) : String :=
  formatFecha p.fechaEmision ++ padStart p.tipoComprobante 2 '0' ++
  padStart p.ruc 13 '0' ++ natToString p.ambiente ++
  padStart p.establecimiento 3 '0' ++ padStart p.puntoEmision 3 '0' ++
  padStart p.secuencial 9 '0' ++ natToString codigoNumerico ++
  natToString p.tipoEmision

/-- `ClaveAccesoService.generate`.  The random 8-digit nonce produced by
`generateCodigoNumerico` is passed in as `codigoNumerico`; every `throw` of
the source becomes an `Except.error`. -/
def generate (p : ClaveAccesoParams) (codigoNumerico : Nat) :
    Except String String :=
  if validateParams p ≠ [] then
    .error "Parametros invalidos para clave de acceso"
  else if (claveSinDigito p codigoNumerico).length ≠ 48 then
    .error "Clave base debe tener exactamente 48 digitos"
  else if ¬ (claveSinDigito p codigoNumerico).data.all (fun c => c.isDigit) then
    .error "Clave base debe contener solo digitos numericos"
  else
    match calcularModulo11 (claveSinDigito p codigoNumerico) with
    | none => .error "Clave debe tener exactamente 48 digitos para el calculo"
    | some digitoVerificador =>
      if (claveSinDigito p codigoNumerico ++ digitoVerificador).length = 49 ∧
          (claveSinDigito p codigoNumerico ++ digitoVerificador).data.all
            (fun c => c.isDigit) then
        .ok (claveSinDigito p codigoNumerico ++ digitoVerificador)
      else .error "Clave de acceso debe cumplir patron XSD"

theorem digitChar_isDigit {d : Nat} (h : d < 10) :
    (digitChar d).isDigit = true := by
  interval_cases d <;> decide

theorem natToString_all_digit (n : Nat) :
    (natToString n).data.all (fun c => c.isDigit) = true := by
  induction n using Nat.strong_induction_on with
  | _ n ih =>
    rw [natToString_eq]
    by_cases h10 : n < 10
    · rw [if_pos h10]
      simp [digitChar_isDigit h10]
    · rw [if_neg h10]
      have hdiv : n / 10 < n := Nat.div_lt_self (by omega) (by omega)
      rw [String.data_append, List.all_append]
      simp [ih (n / 10) hdiv, digitChar_isDigit (Nat.mod_lt n (by omega))]

theorem natToString_lt10 {n : Nat} (h : n < 10) :
    natToString n = ⟨[digitChar n]⟩ := by
  rw [natToString_eq, if_pos h]

theorem natToString_length_pow (k : Nat) :
    ∀ n, 10 ^ k ≤ n → n < 10 ^ (k + 1) → (natToString n).length = k + 1 := by
  induction k with
  | zero =>
    intro n _ h2
    rw [natToString_eq, if_pos (by simpa using h2)]
    rfl
  | succ k ih =>
    intro n h1 h2
    have h10 : ¬ n < 10 := by
      have : (10 : Nat) ≤ 10 ^ (k + 1) := by
        calc (10 : Nat) = 10 ^ 1 := by norm_num
        _ ≤ 10 ^ (k + 1) := Nat.pow_le_pow_right (by omega) (by omega)
      omega
    rw [natToString_eq, if_neg h10, String.length_append]
    have hb1 : 10 ^ k ≤ n / 10 := by
      rw [Nat.le_div_iff_mul_le (by omega)]
      calc 10 ^ k * 10 = 10 ^ (k + 1) := (pow_succ 10 k).symm
      _ ≤ n := h1
    have hb2 : n / 10 < 10 ^ (k + 1) := by
      rw [Nat.div_lt_iff_lt_mul (by omega)]
      calc n < 10 ^ (k + 2) := h2
      _ = 10 ^ (k + 1) * 10 := pow_succ 10 (k + 1)
    rw [ih (n / 10) hb1 hb2]
    rfl

theorem dvOfSuma_lt_10 (s : Nat) : dvOfSuma s < 10 := by
  have h : s % 11 < 11 := Nat.mod_lt _ (by omega)
  simp only [dvOfSuma]
  split_ifs <;> omega

/-- Round-trip kernel: appending the computed check digit to any 48-digit
string yields a string that `validate` accepts. -/
theorem validate_append_dv (clave : String) (h48 : clave.length = 48)
    (hdig : clave.data.all (fun c => c.isDigit) = true) :
    validate (clave ++ natToString (dvOfSuma (claveSuma clave.data 0))) = true := by
  have hdv : dvOfSuma (claveSuma clave.data 0) < 10 := dvOfSuma_lt_10 _
  have hstr : natToString (dvOfSuma (claveSuma clave.data 0)) =
      ⟨[digitChar (dvOfSuma (claveSuma clave.data 0))]⟩ := natToString_lt10 hdv
  have hdata : (clave ++ natToString (dvOfSuma (claveSuma clave.data 0))).data =
      clave.data ++ [digitChar (dvOfSuma (claveSuma clave.data 0))] := by
    rw [String.data_append, hstr]
  have hlen : (clave ++ natToString (dvOfSuma (claveSuma clave.data 0))).length = 49 := by
    rw [String.length_append, hstr, h48]
    rfl
  have htake : (clave ++ natToString (dvOfSuma (claveSuma clave.data 0))).data.take 48 =
      clave.data := by
    rw [hdata, ← h48]
    exact List.take_left clave.data _
  have hdrop : (clave ++ natToString (dvOfSuma (claveSuma clave.data 0))).data.drop 48 =
      [digitChar (dvOfSuma (claveSuma clave.data 0))] := by
    rw [hdata, ← h48]
    exact List.drop_left clave.data _
  unfold validate
  rw [if_neg (by simp [hlen])]
  rw [if_neg (by simp [hdata, List.all_append, hdig, digitChar_isDigit hdv])]
  have heta : (⟨(clave ++ natToString (dvOfSuma (claveSuma clave.data 0))).data.take 48⟩ :
      String) = clave := by
    rw [htake]
  rw [heta]
  have hcalc : calcularModulo11 clave =
      some (natToString (dvOfSuma (claveSuma clave.data 0))) := by
    unfold calcularModulo11
    rw [if_pos h48]
  simp only [hcalc]
  rw [hdrop, hstr]
  simp

/-- Whenever `generate` returns normally, its result is a 49-character digit
string accepted by `validate`. -/
theorem generate_ok (p : ClaveAccesoParams) (cn : Nat) (s : String)
    (h : generate p cn = .ok s) :
    s.length = 49 ∧ s.data.all (fun c => c.isDigit) = true ∧ validate s = true := by
  unfold generate at h
  split at h
  · exact Except.noConfusion h
  · split at h
    · exact Except.noConfusion h
    · split at h
      · exact Except.noConfusion h
      · rename_i hlen48 hdigits
        split at h
        · exact Except.noConfusion h
        · rename_i dvStr heq
          split at h
          · rename_i hfinal
            rw [Except.ok.injEq] at h
            subst h
            refine ⟨hfinal.1, by simpa using hfinal.2, ?_⟩
            unfold calcularModulo11 at heq
            rw [if_pos (by omega)] at heq
            have hdv := (Option.some.injEq _ _).mp heq
            rw [← hdv]
            exact validate_append_dv _ (by omega) (by simpa using hdigits)
          · exact Except.noConfusion h

/-- Claim C1 (amended): for every parameter set and nonce on which `generate`
returns normally, the result is a string of exactly 49 ASCII digits and
`validate` of the result is true.  (Acceptance by the up-front validation
alone does not guarantee normal return, see `c1_counterexample`.) -/
theorem c1_generate_roundtrip (p : ClaveAccesoParams) (codigoNumerico : Nat)
    (s : String) (h : generate p codigoNumerico = Except.ok s) :
    s.length = 49 ∧ s.data.all (fun c => c.isDigit) = true ∧
      validate s = true :=
  generate_ok p codigoNumerico s h

/-- Witness for C1 at the concrete vector of the specification and nonce
12345678. -/
theorem c1_witness :
    ("1501202401179214673900110010010000000011234567810" : String).length = 49 ∧
    ("1501202401179214673900110010010000000011234567810" : String).data.all
      (fun c => c.isDigit) = true ∧
    validate "1501202401179214673900110010010000000011234567810" = true :=
  c1_generate_roundtrip
    ⟨⟨15, 1, 2024⟩, "01", "1792146739001", 1, "001", "001", "000000001", 1⟩
    12345678 "1501202401179214673900110010010000000011234567810" rfl

/-- Counterexample for C1 as frozen: the parameter set with secuencial
`12abc3456` is accepted by the up-front validation (`parseInt` reads the
leading `12`), yet `generate` throws instead of returning 49 digits. -/
theorem c1_counterexample :
    validateParams
        ⟨⟨15, 1, 2024⟩, "01", "1792146739001", 1, "001", "001", "12abc3456", 1⟩ = [] ∧
    (generate
        ⟨⟨15, 1, 2024⟩, "01", "1792146739001", 1, "001", "001", "12abc3456", 1⟩
        12345678).toOption = none := by
  decide

/-- The parameter set of the specification's known vector: date 15/01/2024,
document type 01, tax id 1792146739001, environment 1, establishment 001,
emission point 001, sequence 000000001, emission type 1. -/
def vectorParams : ClaveAccesoParams :=
  ⟨⟨15, 1, 2024⟩, "01", "1792146739001", 1, "001", "001", "000000001", 1⟩

theorem vector_clave_eq (cn : Nat) :
    claveSinDigito vectorParams cn =
      ("150120240117921467390011001001000000001" ++ natToString cn) ++ "1" := rfl

/-- Claim C3: for the known vector and any value of the random 8-digit
nonce, `generate` succeeds, the first 24 digits of the output are exactly
`150120240117921467390011`, the full length is 49, and `validate` of the
output is true. -/
theorem c3_known_vector (cn : Nat) (h1 : 10000000 ≤ cn)
    (h2 : cn ≤ 99999999) :
    ∃ s, generate vectorParams cn = Except.ok s ∧
      (⟨s.data.take 24⟩ : String) = "150120240117921467390011" ∧
      s.length = 49 ∧ validate s = true := by
  have e7 : (10 : Nat) ^ 7 = 10000000 := by norm_num
  have e8 : (10 : Nat) ^ 8 = 100000000 := by norm_num
  have hnl : (natToString cn).length = 8 := by
    have := natToString_length_pow 7 cn (by omega) (by rw [e8]; omega)
    omega
  have hnd := natToString_all_digit cn
  have hcllen : (claveSinDigito vectorParams cn).length = 48 := by
    rw [vector_clave_eq, String.length_append, String.length_append, hnl]
    decide
  have hcldig :
      (claveSinDigito vectorParams cn).data.all (fun c => c.isDigit) = true := by
    rw [vector_clave_eq, String.data_append, String.data_append,
      List.all_append, List.all_append, hnd]
    decide
  have hdv : dvOfSuma (claveSuma (claveSinDigito vectorParams cn).data 0) < 10 :=
    dvOfSuma_lt_10 _
  have hdvs : natToString (dvOfSuma (claveSuma (claveSinDigito vectorParams cn).data 0)) =
      ⟨[digitChar (dvOfSuma (claveSuma (claveSinDigito vectorParams cn).data 0))]⟩ :=
    natToString_lt10 hdv
  have hlen49 : (claveSinDigito vectorParams cn ++
      natToString (dvOfSuma (claveSuma (claveSinDigito vectorParams cn).data 0))).length = 49 := by
    rw [String.length_append, hcllen, hdvs]
    rfl
  have hdig49 : ((claveSinDigito vectorParams cn ++
      natToString (dvOfSuma (claveSuma (claveSinDigito vectorParams cn).data 0))).data.all
        (fun c => c.isDigit)) = true := by
    rw [String.data_append, List.all_append, hcldig, hdvs]
    simp [digitChar_isDigit hdv]
  refine ⟨claveSinDigito vectorParams cn ++
      natToString (dvOfSuma (claveSuma (claveSinDigito vectorParams cn).data 0)),
      ?_, ?_, hlen49, validate_append_dv _ hcllen hcldig⟩
  · unfold generate
    rw [if_neg (by decide)]
    rw [if_neg (by simp [hcllen])]
    rw [if_neg (by simp [hcldig])]
    have hc : calcularModulo11 (claveSinDigito vectorParams cn) =
        some (natToString (dvOfSuma (claveSuma (claveSinDigito vectorParams cn).data 0))) := by
      unfold calcularModulo11
      rw [if_pos hcllen]
    rw [hc]
    exact if_pos ⟨hlen49, hdig49⟩
  · have hdata : (claveSinDigito vectorParams cn ++
        natToString (dvOfSuma (claveSuma (claveSinDigito vectorParams cn).data 0))).data =
        (("150120240117921467390011001001000000001".data ++ (natToString cn).data) ++
          "1".data) ++
          [digitChar (dvOfSuma (claveSuma (claveSinDigito vectorParams cn).data 0))] := by
      rw [String.data_append, hdvs, vector_clave_eq, String.data_append,
        String.data_append]
    rw [hdata]
    rw [List.take_append_of_le_length (by
      simp [List.length_append, hnl]
      )]
    rw [List.take_append_of_le_length (by simp [List.length_append])]
    rw [List.take_append_of_le_length (by decide)]
    decide

/-- Witness for C3 at the concrete nonce 12345678. -/
theorem c3_witness :
    10000000 ≤ 12345678 ∧ 12345678 ≤ 99999999 ∧
    (∃ s, generate vectorParams 12345678 = Except.ok s ∧
      (⟨s.data.take 24⟩ : String) = "150120240117921467390011" ∧
      s.length = 49 ∧ validate s = true) :=
  ⟨by decide, by decide, c3_known_vector 12345678 (by decide) (by decide)⟩

/-- Replacing the character at position `i` of a key (the single-digit
mutation considered by the specification). -/
def mutate (k : String) (i : Nat) (d : Char) : String := ⟨k.data.set i d⟩

theorem mult_bounds :
    ∀ i, i < 48 → 2 ≤ multiplicadores.getD i 0 ∧ multiplicadores.getD i 0 ≤ 7 := by
  decide

theorem claveSuma_set (l : List Char) :
    ∀ (i k : Nat) (d : Char) (h : i < l.length),
      claveSuma (l.set i d) k +
          digitVal (l.get ⟨i, h⟩) * multiplicadores.getD (k + i) 0 =
        claveSuma l k + digitVal d * multiplicadores.getD (k + i) 0 := by
  induction l with
  | nil => intro i k d h; simp at h
  | cons c rest ih =>
    intro i k d h
    cases i with
    | zero =>
      simp only [List.set, claveSuma, List.get, Nat.add_zero]
      ring
    | succ j =>
      have hj : j < rest.length := by simpa using h
      simp only [List.set, claveSuma, List.get]
      have hrec := ih j (k + 1) d hj
      have hkj : k + 1 + j = k + (j + 1) := by omega
      rw [hkj] at hrec
      omega

theorem digitVal_lt_10 {c : Char} (h : c.isDigit = true) : digitVal c < 10 := by
  simp [Char.isDigit] at h
  have h2 : c.toNat ≤ 57 := h.2
  unfold digitVal
  omega

theorem digitVal_inj {c1 c2 : Char} (h1 : c1.isDigit = true)
    (h2 : c2.isDigit = true) (he : digitVal c1 = digitVal c2) : c1 = c2 := by
  simp [Char.isDigit] at h1 h2
  have l1 : 48 ≤ c1.toNat := h1.1
  have u1 : c1.toNat ≤ 57 := h1.2
  have l2 : 48 ≤ c2.toNat := h2.1
  have u2 : c2.toNat ≤ 57 := h2.2
  unfold digitVal at he
  have hn : c1.toNat = c2.toNat := by omega
  have e1 : Char.ofNat c1.toNat = Char.ofNat c2.toNat := by rw [hn]
  rwa [Char.ofNat_toNat, Char.ofNat_toNat] at e1

theorem dv_eq_cases :
    ∀ r, r < 11 → ∀ r', r' < 11 → r ≠ r' →
      ((if 11 - r = 11 then 0 else if 11 - r = 10 then 1 else 11 - r) =
        (if 11 - r' = 11 then 0 else if 11 - r' = 10 then 1 else 11 - r') ↔
        (r = 1 ∧ r' = 10) ∨ (r = 10 ∧ r' = 1)) := by
  decide

/-- The check-digit mapping collides exactly on residues 1 and 10: for sums
with different residues, the check digits agree iff the residues are 1 and
10 in some order. -/
theorem dvOfSuma_eq_iff (s s' : Nat) (h : s % 11 ≠ s' % 11) :
    (dvOfSuma s = dvOfSuma s' ↔
      (s % 11 = 1 ∧ s' % 11 = 10) ∨ (s % 11 = 10 ∧ s' % 11 = 1)) := by
  have h1 : s % 11 < 11 := Nat.mod_lt _ (by omega)
  have h2 : s' % 11 < 11 := Nat.mod_lt _ (by omega)
  have hc := dv_eq_cases (s % 11) h1 (s' % 11) h2 h
  simpa [dvOfSuma] using hc

/-- Changing one digit by a nonzero amount with a weight in 2..7 always
changes the weighted sum modulo the prime 11. -/
theorem residue_ne (S S' w a d : Nat) (heq : S + w * d = S' + w * a)
    (hw1 : 2 ≤ w) (hw2 : w ≤ 7) (ha : a < 10) (hd : d < 10) (hne : d ≠ a) :
    S % 11 ≠ S' % 11 := by
  intro hmod
  have hcast : (S : ZMod 11) = S' := (ZMod.natCast_eq_natCast_iff S S' 11).mpr hmod
  have hceq : ((S + w * d : Nat) : ZMod 11) = ((S' + w * a : Nat) : ZMod 11) := by
    rw [heq]
  push_cast at hceq
  rw [hcast] at hceq
  have hwd : (w : ZMod 11) * d = (w : ZMod 11) * a := add_left_cancel hceq
  have hw0 : (w : ZMod 11) ≠ 0 := by
    rw [Ne, ZMod.natCast_zmod_eq_zero_iff_dvd]
    intro hdvd
    have := Nat.le_of_dvd (by omega) hdvd
    omega
  haveI : Fact (Nat.Prime 11) := ⟨by norm_num⟩
  have hda : (d : ZMod 11) = (a : ZMod 11) := mul_left_cancel₀ hw0 hwd
  have hmod2 := (ZMod.natCast_eq_natCast_iff d a 11).mp hda
  simp only [Nat.ModEq] at hmod2
  have hd11 : d % 11 = d := Nat.mod_eq_of_lt (by omega)
  have ha11 : a % 11 = a := Nat.mod_eq_of_lt (by omega)
  exact hne (by omega)

/-- For a 49-character digit-only string, `validate` amounts to comparing
the last character against the recomputed check digit of the first 48. -/
theorem validate_eq_true_iff (k : String) (hlen : k.length = 49)
    (hdig : k.data.all (fun c => c.isDigit) = true) :
    (validate k = true ↔
      (⟨k.data.drop 48⟩ : String) =
        natToString (dvOfSuma (claveSuma (k.data.take 48) 0))) := by
  unfold validate
  rw [if_neg (by simp [hlen]), if_neg (by simp [hdig])]
  have hdl : k.data.length = 49 := hlen
  have ht : ((⟨k.data.take 48⟩ : String)).length = 48 := by
    show (k.data.take 48).length = 48
    rw [List.length_take]
    omega
  unfold calcularModulo11
  rw [if_pos ht]
  simp [beq_iff_eq]

theorem all_take {p : Char → Bool} {l : List Char} (h : l.all p = true)
    (n : Nat) : (l.take n).all p = true := by
  rw [List.all_eq_true] at h ⊢
  intro x hx
  exact h x (List.mem_of_mem_take hx)

theorem all_set {p : Char → Bool} {l : List Char} {d : Char}
    (h : l.all p = true) (hd : p d = true) (i : Nat) :
    (l.set i d).all p = true := by
  rw [List.all_eq_true] at h ⊢
  intro x hx
  rcases List.mem_or_eq_of_mem_set hx with h1 | h2
  · exact h x h1
  · rw [h2]; exact hd

theorem natToString_inj_lt10 :
    ∀ a, a < 10 → ∀ b, b < 10 → (natToString a = natToString b ↔ a = b) := by
  decide

/-- Claim C2 (amended): mutating one of the first 48 digits of a valid key
flips `validate` to false, except exactly when the weighted-sum residues of
the original and mutated prefixes are 1 and 10 in some order (the check-digit
mapping sends both residues to the digit 1). -/
theorem c2_mutation (k : String) (i : Nat) (d : Char)
    (hk : validate k = true) (hi : i < 48) (hd : d.isDigit = true)
    (hne : d ≠ k.data.getD i ' ') :
    (validate (mutate k i d) = true ↔
      ((claveSuma (k.data.take 48) 0 % 11 = 1 ∧
        claveSuma ((mutate k i d).data.take 48) 0 % 11 = 10) ∨
       (claveSuma (k.data.take 48) 0 % 11 = 10 ∧
        claveSuma ((mutate k i d).data.take 48) 0 % 11 = 1))) := by
  have hlen : k.length = 49 := by
    by_contra hne49
    unfold validate at hk
    rw [if_pos hne49] at hk
    exact Bool.noConfusion hk
  have hdig : k.data.all (fun c => c.isDigit) = true := by
    by_contra hnd
    unfold validate at hk
    rw [if_neg (by simp [hlen]), if_pos hnd] at hk
    exact Bool.noConfusion hk
  have hdl : k.data.length = 49 := hlen
  have hEqDv := (validate_eq_true_iff k hlen hdig).mp hk
  have hmdata : (mutate k i d).data = k.data.set i d := rfl
  have hmlen : (mutate k i d).length = 49 := by
    show (k.data.set i d).length = 49
    rw [List.length_set]
    exact hlen
  have hmdig : (mutate k i d).data.all (fun c => c.isDigit) = true := by
    rw [hmdata]
    exact all_set hdig hd i
  have hmtake : (mutate k i d).data.take 48 = (k.data.take 48).set i d := by
    rw [hmdata]
    exact List.set_take
  have hmdrop : (mutate k i d).data.drop 48 = k.data.drop 48 := by
    rw [hmdata]
    exact List.drop_set_of_lt d k.data hi
  have htl : (k.data.take 48).length = 48 := by
    rw [List.length_take]
    omega
  have hi' : i < (k.data.take 48).length := by omega
  have hold_mem : (k.data.take 48).get ⟨i, hi'⟩ ∈ k.data :=
    List.mem_of_mem_take (List.get_mem _ _ _)
  have holddig : ((k.data.take 48).get ⟨i, hi'⟩).isDigit = true := by
    rw [List.all_eq_true] at hdig
    exact hdig _ hold_mem
  have hold_eq : (k.data.take 48).get ⟨i, hi'⟩ = k.data.getD i ' ' := by
    rw [List.get_eq_getElem, List.getElem_take]
    exact (List.getD_eq_getElem k.data ' ' (by omega)).symm
  have hsum := claveSuma_set (k.data.take 48) i 0 d hi'
  simp only [Nat.zero_add] at hsum
  have hw := mult_bounds i hi
  have heq : claveSuma (k.data.take 48) 0 +
      multiplicadores.getD i 0 * digitVal d =
      claveSuma ((mutate k i d).data.take 48) 0 +
        multiplicadores.getD i 0 * digitVal ((k.data.take 48).get ⟨i, hi'⟩) := by
    rw [hmtake, Nat.mul_comm (multiplicadores.getD i 0) (digitVal d),
      Nat.mul_comm (multiplicadores.getD i 0)
        (digitVal ((k.data.take 48).get ⟨i, hi'⟩))]
    omega
  have hdne : digitVal d ≠ digitVal ((k.data.take 48).get ⟨i, hi'⟩) := by
    intro he
    exact hne (by rw [← hold_eq]; exact digitVal_inj hd holddig he)
  have hres : claveSuma (k.data.take 48) 0 % 11 ≠
      claveSuma ((mutate k i d).data.take 48) 0 % 11 :=
    residue_ne _ _ (multiplicadores.getD i 0)
      (digitVal ((k.data.take 48).get ⟨i, hi'⟩)) (digitVal d) heq hw.1 hw.2
      (digitVal_lt_10 holddig) (digitVal_lt_10 hd) hdne
  calc validate (mutate k i d) = true
      ↔ (⟨(mutate k i d).data.drop 48⟩ : String) =
          natToString (dvOfSuma (claveSuma ((mutate k i d).data.take 48) 0)) :=
        validate_eq_true_iff _ hmlen hmdig
    _ ↔ natToString (dvOfSuma (claveSuma (k.data.take 48) 0)) =
          natToString (dvOfSuma (claveSuma ((mutate k i d).data.take 48) 0)) := by
        rw [hmdrop, hEqDv]
    _ ↔ dvOfSuma (claveSuma (k.data.take 48) 0) =
          dvOfSuma (claveSuma ((mutate k i d).data.take 48) 0) :=
        natToString_inj_lt10 _ (dvOfSuma_lt_10 _) _ (dvOfSuma_lt_10 _)
    _ ↔ _ := dvOfSuma_eq_iff _ _ hres

/-- Counterexample for C2 as frozen: a valid key whose weighted-sum residue
is 1; raising the digit at position 46 (weight 3) by 3 moves the residue to
10 and yields the same check digit, so the mutated key still validates. -/
theorem c2_counterexample :
    validate "0000000000000000000000000000000000000000000000061" = true ∧
    ('3' : Char) ≠
      "0000000000000000000000000000000000000000000000061".data.getD 46 ' ' ∧
    mutate "0000000000000000000000000000000000000000000000061" 46 '3' =
      "0000000000000000000000000000000000000000000000361" ∧
    validate "0000000000000000000000000000000000000000000000361" = true := by
  decide

/-- Witness for C2 at a mutation that is detected: changing the last prefix
digit of the all-zero valid key to 5 (weight 2, residue moves 0 to 10). -/
theorem c2_witness :
    validate "0000000000000000000000000000000000000000000000000" = true ∧
    47 < 48 ∧ ('5' : Char).isDigit = true ∧
    ('5' : Char) ≠
      "0000000000000000000000000000000000000000000000000".data.getD 47 ' ' ∧
    (validate
        (mutate "0000000000000000000000000000000000000000000000000" 47 '5') =
          true ↔
      ((claveSuma
            ("0000000000000000000000000000000000000000000000000".data.take 48)
            0 % 11 = 1 ∧
        claveSuma
            ((mutate "0000000000000000000000000000000000000000000000000" 47
                '5').data.take 48) 0 % 11 = 10) ∨
       (claveSuma
            ("0000000000000000000000000000000000000000000000000".data.take 48)
            0 % 11 = 10 ∧
        claveSuma
            ((mutate "0000000000000000000000000000000000000000000000000" 47
                '5').data.take 48) 0 % 11 = 1))) :=
  ⟨by decide, by decide, by decide, by decide,
    c2_mutation "0000000000000000000000000000000000000000000000000" 47 '5'
      (by decide) (by decide) (by decide) (by decide)⟩

end ClaveAcceso

namespace InvoiceXml

/-- Factores of `InvoiceXMLBuilder.calcularModulo11`: 2,3,4,5,6,7 applied
right-to-left over the digits. -/
def factores : List Nat := [2, 3, 4, 5, 6, 7]

/-- The accumulation loop of `InvoiceXMLBuilder.calcularModulo11`: the input
is scanned right-to-left (here: its reversed character list), multiplying by
the factores in cycling order.  The source keeps `factorIndex` reduced mod 6
after each step; reading `factores[k % 6]` with an unreduced counter `k`
yields the same factor sequence. -/
def invSuma : List Char → Nat → Nat
  | [], _ => 0
  | c :: rest, k =>
    ClaveAcceso.digitVal c * factores.getD (k % 6) 0 + invSuma rest (k + 1)

/-- `InvoiceXMLBuilder.calcularModulo11` (no length restriction): same
remainder mapping as the ClaveAcceso service, over the right-to-left sum. -/
def calcularModulo11 (numero : String) : String :=
  ClaveAcceso.natToString (ClaveAcceso.dvOfSuma (invSuma numero.data.reverse 0))

theorem invSuma_append (xs ys : List Char) (k : Nat) :
    invSuma (xs ++ ys) k = invSuma xs k + invSuma ys (k + xs.length) := by
  induction xs generalizing k with
  | nil => simp [invSuma]
  | cons c rest ih =>
    simp only [List.cons_append, invSuma, List.length_cons, List.append_eq]
    rw [ih (k + 1)]
    have h : k + (rest.length + 1) = k + 1 + rest.length := by omega
    rw [h]
    omega

theorem invSuma_congr (l : List Char) :
    ∀ k₁ k₂, k₁ % 6 = k₂ % 6 → invSuma l k₁ = invSuma l k₂ := by
  induction l with
  | nil => intro k₁ k₂ _; rfl
  | cons c rest ih =>
    intro k₁ k₂ h
    simp only [invSuma, h, ih (k₁ + 1) (k₂ + 1) (by omega)]

theorem mult_getD_mod :
    ∀ i, i < 48 →
      ClaveAcceso.multiplicadores.getD i 0 = [7, 6, 5, 4, 3, 2].getD (i % 6) 0 := by
  decide

/-- The bridge: for a block of characters whose length is a multiple of 6
placed at a phase-aligned position inside the 48-digit window, the
left-to-right 7,6,5,4,3,2 sum equals the right-to-left 2,3,4,5,6,7 sum. -/
theorem claveSuma_eq_invSuma :
    ∀ (l : List Char) (k : Nat), k % 6 = 0 → k + l.length ≤ 48 →
      l.length % 6 = 0 → ClaveAcceso.claveSuma l k = invSuma l.reverse 0
  | [], k, _, _, _ => by simp [ClaveAcceso.claveSuma, invSuma]
  | [_], _, _, _, hl6 => by simp at hl6
  | [_, _], _, _, _, hl6 => by simp at hl6
  | [_, _, _], _, _, _, hl6 => by simp at hl6
  | [_, _, _, _], _, _, _, hl6 => by simp at hl6
  | [_, _, _, _, _], _, _, _, hl6 => by simp at hl6
  | (a :: b :: c :: d :: e :: f :: rest), k, hk6, hkb, hl6 => by
    have hrl : rest.length % 6 = 0 := by
      simp only [List.length_cons] at hl6
      omega
    have hkb6 : k + 6 + rest.length ≤ 48 := by
      simp only [List.length_cons] at hkb
      omega
    have ih := claveSuma_eq_invSuma rest (k + 6) (by omega) hkb6 hrl
    have m0 : ClaveAcceso.multiplicadores.getD k 0 = 7 := by
      rw [mult_getD_mod k (by omega), hk6]
      rfl
    have m1 : ClaveAcceso.multiplicadores.getD (k + 1) 0 = 6 := by
      rw [mult_getD_mod (k + 1) (by omega), show (k + 1) % 6 = 1 by omega]
      rfl
    have m2 : ClaveAcceso.multiplicadores.getD (k + 2) 0 = 5 := by
      rw [mult_getD_mod (k + 2) (by omega), show (k + 2) % 6 = 2 by omega]
      rfl
    have m3 : ClaveAcceso.multiplicadores.getD (k + 3) 0 = 4 := by
      rw [mult_getD_mod (k + 3) (by omega), show (k + 3) % 6 = 3 by omega]
      rfl
    have m4 : ClaveAcceso.multiplicadores.getD (k + 4) 0 = 3 := by
      rw [mult_getD_mod (k + 4) (by omega), show (k + 4) % 6 = 4 by omega]
      rfl
    have m5 : ClaveAcceso.multiplicadores.getD (k + 5) 0 = 2 := by
      rw [mult_getD_mod (k + 5) (by omega), show (k + 5) % 6 = 5 by omega]
      rfl
    have lhs : ClaveAcceso.claveSuma (a :: b :: c :: d :: e :: f :: rest) k =
        ClaveAcceso.digitVal a * ClaveAcceso.multiplicadores.getD k 0 +
        (ClaveAcceso.digitVal b * ClaveAcceso.multiplicadores.getD (k + 1) 0 +
        (ClaveAcceso.digitVal c * ClaveAcceso.multiplicadores.getD (k + 2) 0 +
        (ClaveAcceso.digitVal d * ClaveAcceso.multiplicadores.getD (k + 3) 0 +
        (ClaveAcceso.digitVal e * ClaveAcceso.multiplicadores.getD (k + 4) 0 +
        (ClaveAcceso.digitVal f * ClaveAcceso.multiplicadores.getD (k + 5) 0 +
          ClaveAcceso.claveSuma rest (k + 6)))))) := rfl
    have hrev : (a :: b :: c :: d :: e :: f :: rest).reverse =
        rest.reverse ++ [f, e, d, c, b, a] := by
      simp
    have rhs : invSuma (a :: b :: c :: d :: e :: f :: rest).reverse 0 =
        invSuma rest.reverse 0 + invSuma [f, e, d, c, b, a] rest.length := by
      rw [hrev, invSuma_append]
      simp
    have hchunk : invSuma [f, e, d, c, b, a] rest.length =
        invSuma [f, e, d, c, b, a] 0 :=
      invSuma_congr _ _ _ (by omega)
    have hchunkval : invSuma [f, e, d, c, b, a] 0 =
        ClaveAcceso.digitVal f * 2 + (ClaveAcceso.digitVal e * 3 +
        (ClaveAcceso.digitVal d * 4 + (ClaveAcceso.digitVal c * 5 +
        (ClaveAcceso.digitVal b * 6 + (ClaveAcceso.digitVal a * 7 + 0))))) := rfl
    rw [lhs, m0, m1, m2, m3, m4, m5, ih, rhs, hchunk, hchunkval]
    omega

/-- Claim C10: the two independent modulo-11 implementations agree on every
string of exactly 48 ASCII digits: the ClaveAcceso service (weights
7,6,5,4,3,2 left-to-right) computes the same check digit as the
InvoiceXMLBuilder (factors 2,3,4,5,6,7 right-to-left). -/
theorem c10_modulo11_agree (s : String) (h48 : s.length = 48)
    (hdig : s.data.all (fun c => c.isDigit) = true) :
    ClaveAcceso.calcularModulo11 s = some (calcularModulo11 s) := by
  unfold ClaveAcceso.calcularModulo11 calcularModulo11
  rw [if_pos h48]
  have hdl : s.data.length = 48 := h48
  rw [claveSuma_eq_invSuma s.data 0 (by omega) (by omega) (by omega)]

/-- Witness for C10 at a concrete 48-digit string. -/
theorem c10_witness :
    ("000000000000000000000000000000000000000000000006" : String).length = 48 ∧
    ("000000000000000000000000000000000000000000000006" : String).data.all
      (fun c => c.isDigit) = true ∧
    ClaveAcceso.calcularModulo11
        "000000000000000000000000000000000000000000000006" =
      some (calcularModulo11 "000000000000000000000000000000000000000000000006") :=
  ⟨by decide, by decide,
    c10_modulo11_agree "000000000000000000000000000000000000000000000006"
      (by decide) (by decide)⟩

end InvoiceXml

namespace C14N

/-- XML trees as seen by the canonicalizer: elements carry their attribute
list in input order; text nodes carry their raw character data.  Other DOM
node kinds produce no output in `canonicalizeNode` and are not modelled. -/
inductive XmlNode where
  | element (tagName : String) (attrs : List (String × String))
      (children : List XmlNode)
  | text (s : String)

/-- Single-character global replacement on a character list: the semantics
of one JS `value.replace(/c/g, repl)` step. -/
def replList (target : Char) (repl : List Char) (l : List Char) : List Char :=
  (l.map (fun c => if c = target then repl else [c])).flatten

/-- JS `String.prototype.replace` with a single-character global pattern. -/
def jsReplaceAll (target : Char) (repl : String) (s : String) : String :=
  ⟨replList target repl.data s.data⟩

/-- `SRIC14N.escapeAttributeValue`: sequential global replacements of
`&`, `<`, `"`, tab, LF and CR, in source order.  Note `>` is not replaced. -/
def escapeAttributeValue (value : String) : String :=
  jsReplaceAll '\r' "&#xD;"
    (jsReplaceAll '\n' "&#xA;"
      (jsReplaceAll '\t' "&#x9;"
        (jsReplaceAll '"' "&quot;"
          (jsReplaceAll '<' "&lt;"
            (jsReplaceAll '&' "&amp;" value)))))

/-- `SRIC14N.canonicalizeText`: sequential global replacements of
`&`, `<`, `>` and CR. -/
def canonicalizeText (text : String) : String :=
  jsReplaceAll '\r' "&#xD;"
    (jsReplaceAll '>' "&gt;"
      (jsReplaceAll '<' "&lt;"
        (jsReplaceAll '&' "&amp;" text)))

/-- JS `String.prototype.startsWith`. -/
def jsStartsWith (s pre : String) : Bool := pre.data.isPrefixOf s.data

/-- `SRIC14N.splitQName`: prefix before the first colon (the "namespaceURI"
of the source) and the remainder after it; no colon gives an empty prefix. -/
def splitQName (qname : String) : String × String :=
  if ':' ∈ qname.data then
    (⟨qname.data.takeWhile (fun c => c ≠ ':')⟩,
     ⟨(qname.data.dropWhile (fun c => c ≠ ':')).drop 1⟩)
  else ("", qname)

/-- Code-point lexicographic comparison of character lists: the model of
`String.prototype.localeCompare` on the ASCII names compared here. -/
def cmpChars : List Char → List Char → Ordering
  | [], [] => .eq
  | [], _ :: _ => .lt
  | _ :: _, [] => .gt
  | a :: as, b :: bs =>
    if a.toNat < b.toNat then .lt
    else if b.toNat < a.toNat then .gt
    else cmpChars as bs

/-- `SRIC14N.attributeCompare`: compare the namespace parts first (an empty
part sorts first), then the local names. -/
def attributeCompare (a b : String) : Ordering :=
  if (splitQName a).1 ≠ (splitQName b).1 then
    if (splitQName a).1 = "" then .lt
    else if (splitQName b).1 = "" then .gt
    else cmpChars (splitQName a).1.data (splitQName b).1.data
  else cmpChars (splitQName a).2.data (splitQName b).2.data

/-- Insertion into a JS object keyed by namespace prefix: an existing key is
updated in place (keeping its position), a new key is appended. -/
def objInsert (m : List (String × String)) (k v : String) :
    List (String × String) :=
  if m.any (fun p => p.1 = k) then
    m.map (fun p => if p.1 = k then (k, v) else p)
  else m ++ [(k, v)]

/-- The namespace prefix `extractNamespaces` computes from an attribute name
that passes the `startsWith("xmlns")` test. -/
def nsPrefixOf (n : String) : String :=
  if n = "xmlns" then "" else ⟨n.data.drop 6⟩

/-- `SRIC14N.extractNamespaces`: build the prefix-to-URI object from the
attributes whose name starts with `xmlns`. -/
def extractNamespaces (attrs : List (String × String)) :
    List (String × String) :=
  attrs.foldl
    (fun m a =>
      if jsStartsWith a.1 "xmlns" then objInsert m (nsPrefixOf a.1) a.2 else m)
    []

/-- `SRIC14N.getSortedNamespaces`: rebuild the declaration names and sort by
name.  JS `Array.prototype.sort` is modelled by insertion sort; on the
duplicate-free keys produced here any comparison sort gives this result. -/
def getSortedNamespaces (namespaces : List (String × String)) :
    List (String × String) :=
  List.insertionSort
    (fun x y => cmpChars x.1.data y.1.data ≠ Ordering.gt)
    (namespaces.map
      (fun p => (if p.1 = "" then "xmlns" else "xmlns:" ++ p.1, p.2)))

/-- `SRIC14N.getSortedAttributes`: the non-namespace attributes sorted by
`attributeCompare` on their names. -/
def getSortedAttributes (attrs : List (String × String)) :
    List (String × String) :=
  List.insertionSort
    (fun x y => attributeCompare x.1 y.1 ≠ Ordering.gt)
    (attrs.filter (fun a => ¬ jsStartsWith a.1 "xmlns"))

mutual
/-- `SRIC14N.canonicalizeNode` / `canonicalizeElement`: open tag with sorted
namespace declarations then sorted non-namespace attributes (the emission
loop re-checks the `xmlns` test), children in order, close tag.  The
`inheritedNamespaces` accumulator of the source is threaded to children but
never read by any emitter, so it is omitted here. -/
def canonicalizeNode : XmlNode → String
  | .text s => canonicalizeText s
  | .element tagName attrs children =>
    "<" ++ tagName ++
    String.join
      ((getSortedNamespaces (extractNamespaces attrs)).map
        (fun ns => " " ++ ns.1 ++ "=\"" ++ escapeAttributeValue ns.2 ++ "\"")) ++
    String.join
      ((getSortedAttributes attrs).map
        (fun a =>
          if jsStartsWith a.1 "xmlns" then ""
          else " " ++ a.1 ++ "=\"" ++ escapeAttributeValue a.2 ++ "\"")) ++
    ">" ++
    canonicalizeChildren children ++
    "</" ++ tagName ++ ">"
/-- Concatenation of the canonical forms of a child list. -/
def canonicalizeChildren : List XmlNode → String
  | [] => ""
  | c :: rest => canonicalizeNode c ++ canonicalizeChildren rest
end

/-- `SRIC14N.canonicalize` applied to an already-parsed document element. -/
def canonicalize (root : XmlNode) : String := canonicalizeNode root

/-- Per-character effect of `escapeAttributeValue`: the six replaced
characters and no other. -/
def attrEscMap (c : Char) : String :=
  if c = '&' then "&amp;"
  else if c = '<' then "&lt;"
  else if c = '"' then "&quot;"
  else if c = '\t' then "&#x9;"
  else if c = '\n' then "&#xA;"
  else if c = '\r' then "&#xD;"
  else ⟨[c]⟩

/-- Per-character effect of `canonicalizeText`: the four replaced characters
and no other. -/
def textEscMap (c : Char) : String :=
  if c = '&' then "&amp;"
  else if c = '<' then "&lt;"
  else if c = '>' then "&gt;"
  else if c = '\r' then "&#xD;"
  else ⟨[c]⟩

theorem replList_append (t : Char) (r : List Char) (l₁ l₂ : List Char) :
    replList t r (l₁ ++ l₂) = replList t r l₁ ++ replList t r l₂ := by
  simp [replList]

theorem escAttr_append (l₁ l₂ : List Char) :
    (escapeAttributeValue ⟨l₁ ++ l₂⟩).data =
      (escapeAttributeValue ⟨l₁⟩).data ++ (escapeAttributeValue ⟨l₂⟩).data := by
  simp [escapeAttributeValue, jsReplaceAll, replList_append]

theorem escText_append (l₁ l₂ : List Char) :
    (canonicalizeText ⟨l₁ ++ l₂⟩).data =
      (canonicalizeText ⟨l₁⟩).data ++ (canonicalizeText ⟨l₂⟩).data := by
  simp [canonicalizeText, jsReplaceAll, replList_append]

theorem escAttr_single (x : Char) :
    (escapeAttributeValue ⟨[x]⟩).data = (attrEscMap x).data := by
  by_cases h1 : x = '&'
  · subst h1; rfl
  by_cases h2 : x = '<'
  · subst h2; rfl
  by_cases h3 : x = '"'
  · subst h3; rfl
  by_cases h4 : x = '\t'
  · subst h4; rfl
  by_cases h5 : x = '\n'
  · subst h5; rfl
  by_cases h6 : x = '\r'
  · subst h6; rfl
  simp [escapeAttributeValue, jsReplaceAll, replList, attrEscMap,
    h1, h2, h3, h4, h5, h6]

theorem escText_single (x : Char) :
    (canonicalizeText ⟨[x]⟩).data = (textEscMap x).data := by
  by_cases h1 : x = '&'
  · subst h1; rfl
  by_cases h2 : x = '<'
  · subst h2; rfl
  by_cases h3 : x = '>'
  · subst h3; rfl
  by_cases h4 : x = '\r'
  · subst h4; rfl
  simp [canonicalizeText, jsReplaceAll, replList, textEscMap, h1, h2, h3, h4]

theorem escAttr_data (l : List Char) :
    (escapeAttributeValue ⟨l⟩).data = (l.map (fun c => (attrEscMap c).data)).flatten := by
  induction l with
  | nil => rfl
  | cons x rest ih =>
    have hsplit := escAttr_append [x] rest
    simp only [List.singleton_append] at hsplit
    rw [hsplit, escAttr_single, ih]
    simp

theorem escText_data (l : List Char) :
    (canonicalizeText ⟨l⟩).data = (l.map (fun c => (textEscMap c).data)).flatten := by
  induction l with
  | nil => rfl
  | cons x rest ih =>
    have hsplit := escText_append [x] rest
    simp only [List.singleton_append] at hsplit
    rw [hsplit, escText_single, ih]
    simp

/-- Claim C5 (amended): both escapers act independently per character;
attribute values replace exactly `&`, `<`, `"`, tab, LF, CR (not `>`),
text content replaces exactly `&`, `<`, `>`, CR, and no other character is
touched in either context — the per-character tables are `attrEscMap` and
`textEscMap`. -/
theorem c5_escaping (s : String) :
    escapeAttributeValue s = ⟨(s.data.map (fun c => (attrEscMap c).data)).flatten⟩ ∧
    canonicalizeText s = ⟨(s.data.map (fun c => (textEscMap c).data)).flatten⟩ := by
  constructor
  · have h := escAttr_data s.data
    exact congrArg String.mk h
  · have h := escText_data s.data
    exact congrArg String.mk h

/-- Counterexample for C5 as frozen: a `>` in an attribute value passes
through `canonicalize` unescaped. -/
theorem c5_counterexample :
    escapeAttributeValue ">" = ">" ∧
    canonicalize (XmlNode.element "a" [("b", ">")] []) = "<a b=\">\"></a>" := by
  decide

theorem char_toNat_inj {a b : Char} (h : a.toNat = b.toNat) : a = b := by
  have e1 : Char.ofNat a.toNat = Char.ofNat b.toNat := by rw [h]
  rwa [Char.ofNat_toNat, Char.ofNat_toNat] at e1

theorem cmpChars_eq_iff : ∀ x y : List Char, cmpChars x y = .eq ↔ x = y := by
  intro x
  induction x with
  | nil =>
    intro y
    cases y <;> simp [cmpChars]
  | cons a as ih =>
    intro y
    cases y with
    | nil => simp [cmpChars]
    | cons b bs =>
      by_cases h1 : a.toNat < b.toNat
      · have hne : a ≠ b := fun he => by subst he; omega
        simp [cmpChars, h1, hne]
      · by_cases h2 : b.toNat < a.toNat
        · have hne : a ≠ b := fun he => by subst he; omega
          simp [cmpChars, h1, h2, hne]
        · have hab : a = b := char_toNat_inj (by omega)
          subst hab
          simp [cmpChars, h1, h2, ih bs]

theorem cmpChars_swap : ∀ x y : List Char, cmpChars y x = (cmpChars x y).swap := by
  intro x
  induction x with
  | nil => intro y; cases y <;> simp [cmpChars, Ordering.swap]
  | cons a as ih =>
    intro y
    cases y with
    | nil => simp [cmpChars, Ordering.swap]
    | cons b bs =>
      by_cases h1 : a.toNat < b.toNat
      · have h2 : ¬ b.toNat < a.toNat := by omega
        simp [cmpChars, h1, h2, Ordering.swap]
      · by_cases h2 : b.toNat < a.toNat
        · simp [cmpChars, h1, h2, Ordering.swap]
        · simp [cmpChars, h1, h2, ih bs]

theorem cmpChars_lt_trans :
    ∀ x y z : List Char, cmpChars x y = .lt → cmpChars y z = .lt →
      cmpChars x z = .lt := by
  intro x
  induction x with
  | nil =>
    intro y z hxy hyz
    cases y with
    | nil => exact absurd hxy (by simp [cmpChars])
    | cons b bs =>
      cases z with
      | nil => exact absurd hyz (by simp [cmpChars])
      | cons c cs => simp [cmpChars]
  | cons a as ih =>
    intro y z hxy hyz
    cases y with
    | nil => exact absurd hxy (by simp [cmpChars])
    | cons b bs =>
      cases z with
      | nil => exact absurd hyz (by simp [cmpChars])
      | cons c cs =>
        simp only [cmpChars] at hxy hyz ⊢
        by_cases h1 : a.toNat < b.toNat
        · by_cases h2 : b.toNat < c.toNat
          · rw [if_pos (by omega : a.toNat < c.toNat)]
          · rw [if_neg h2] at hyz
            by_cases h3 : c.toNat < b.toNat
            · rw [if_pos h3] at hyz
              exact absurd hyz (by simp)
            · have hbc : b = c := char_toNat_inj (by omega)
              subst hbc
              rw [if_pos h1]
        · by_cases h1' : b.toNat < a.toNat
          · rw [if_neg h1, if_pos h1'] at hxy
            exact absurd hxy (by simp)
          · have hab : a = b := char_toNat_inj (by omega)
            subst hab
            rw [if_neg h1, if_neg h1'] at hxy
            by_cases h2 : a.toNat < c.toNat
            · rw [if_pos h2]
            · by_cases h2' : c.toNat < a.toNat
              · rw [if_neg h2, if_pos h2'] at hyz
                exact absurd hyz (by simp)
              · rw [if_neg h2, if_neg h2'] at hyz ⊢
                exact ih bs cs hxy hyz

/-- Two permuted lists that are both strictly sorted by an asymmetric
relation are equal. -/
theorem sorted_perm_eq {α : Type} {R : α → α → Prop}
    (hasymm : ∀ a b, R a b → ¬ R b a) :
    ∀ l₁ l₂ : List α, l₁.Perm l₂ → l₁.Pairwise R → l₂.Pairwise R →
      l₁ = l₂ := by
  intro l₁
  induction l₁ with
  | nil =>
    intro l₂ hp _ _
    exact (List.Perm.nil_eq hp).symm ▸ rfl
  | cons a as ih =>
    intro l₂ hp h₁ h₂
    cases l₂ with
    | nil => exact absurd hp.symm (by simp)
    | cons b bs =>
      by_cases hab : a = b
      · subst hab
        have hperm : as.Perm bs := hp.cons_inv
        rw [ih bs hperm (List.Pairwise.of_cons h₁) (List.Pairwise.of_cons h₂)]
      · have hamem : a ∈ b :: bs := hp.mem_iff.mp (by simp)
        have habs : a ∈ bs := by
          rcases List.mem_cons.mp hamem with h | h
          · exact absurd h hab
          · exact h
        have hbmem : b ∈ a :: as := hp.symm.mem_iff.mp (by simp)
        have hbas : b ∈ as := by
          rcases List.mem_cons.mp hbmem with h | h
          · exact absurd h.symm hab
          · exact h
        have hRab : R a b := (List.pairwise_cons.mp h₁).1 b hbas
        have hRba : R b a := (List.pairwise_cons.mp h₂).1 a habs
        exact absurd hRba (hasymm a b hRab)

/-- Combine two pairwise facts pointwise. -/
theorem pairwise_combine {α : Type} {R S T : α → α → Prop}
    (hstep : ∀ a b, R a b → S a b → T a b) :
    ∀ l : List α, l.Pairwise R → l.Pairwise S → l.Pairwise T := by
  intro l
  induction l with
  | nil => intro _ _; exact List.Pairwise.nil
  | cons a as ih =>
    intro h₁ h₂
    rw [List.pairwise_cons] at h₁ h₂ ⊢
    exact ⟨fun b hb => hstep a b (h₁.1 b hb) (h₂.1 b hb), ih h₁.2 h₂.2⟩

theorem string_data_inj {s t : String} : s = t ↔ s.data = t.data := by
  constructor
  · intro h; rw [h]
  · intro h; cases s; cases t; exact congrArg String.mk h

/-- Well-formed XML attribute name (a QName): the part after the first colon
is nonempty and colon-free, and a name containing a colon has a nonempty
part before it.  Colon-free nonempty names satisfy this trivially. -/
def wfName (n : String) : Prop :=
  (splitQName n).2 ≠ "" ∧ ¬ ':' ∈ (splitQName n).2.data ∧
    (':' ∈ n.data → (splitQName n).1 ≠ "")

theorem takeWhile_colon_decomp :
    ∀ l : List Char, ':' ∈ l →
      l = l.takeWhile (fun c => c ≠ ':') ++
        ':' :: (l.dropWhile (fun c => c ≠ ':')).drop 1 := by
  intro l
  induction l with
  | nil => intro h; simp at h
  | cons c rest ih =>
    intro h
    by_cases hc : c = ':'
    · subst hc
      have ht : (':' :: rest).takeWhile (fun x => x ≠ ':') = [] := by
        rw [List.takeWhile_cons]
        simp
      have hd : (':' :: rest).dropWhile (fun x => x ≠ ':') = ':' :: rest := by
        rw [List.dropWhile_cons]
        simp
      rw [ht, hd]
      rfl
    · have hr : ':' ∈ rest := by
        rcases List.mem_cons.mp h with h1 | h1
        · exact absurd h1.symm hc
        · exact h1
      have ht : (c :: rest).takeWhile (fun x => x ≠ ':') =
          c :: rest.takeWhile (fun x => x ≠ ':') := by
        rw [List.takeWhile_cons]
        simp [hc]
      have hd : (c :: rest).dropWhile (fun x => x ≠ ':') =
          rest.dropWhile (fun x => x ≠ ':') := by
        rw [List.dropWhile_cons]
        simp [hc]
      rw [ht, hd, List.cons_append]
      exact congrArg (c :: ·) (ih hr)

theorem splitQName_reconstruct {n : String} (h : ':' ∈ n.data) :
    n.data = (splitQName n).1.data ++ ':' :: (splitQName n).2.data := by
  rw [splitQName, if_pos h]
  exact takeWhile_colon_decomp n.data h

theorem splitQName_no_colon {n : String} (h : ¬ ':' ∈ n.data) :
    splitQName n = ("", n) := by
  rw [splitQName, if_neg h]

theorem splitQName_inj {n₁ n₂ : String} (w₁ : wfName n₁) (w₂ : wfName n₂)
    (h : splitQName n₁ = splitQName n₂) : n₁ = n₂ := by
  by_cases c₁ : ':' ∈ n₁.data <;> by_cases c₂ : ':' ∈ n₂.data
  · rw [string_data_inj, splitQName_reconstruct c₁, splitQName_reconstruct c₂, h]
  · exfalso
    have h1 := w₁.2.2 c₁
    rw [h, splitQName_no_colon c₂] at h1
    exact h1 rfl
  · exfalso
    have h2 := w₂.2.2 c₂
    rw [← h, splitQName_no_colon c₁] at h2
    exact h2 rfl
  · have e1 := splitQName_no_colon c₁
    have e2 := splitQName_no_colon c₂
    rw [e1, e2] at h
    exact congrArg Prod.snd h

/-- The comparator as a function of the two split QNames. -/
def attrCmpParts (x y : String × String) : Ordering :=
  if x.1 ≠ y.1 then
    if x.1 = "" then .lt
    else if y.1 = "" then .gt
    else cmpChars x.1.data y.1.data
  else cmpChars x.2.data y.2.data

theorem attributeCompare_eq_parts (a b : String) :
    attributeCompare a b = attrCmpParts (splitQName a) (splitQName b) := rfl

theorem cmpChars_self (l : List Char) : cmpChars l l = .eq :=
  (cmpChars_eq_iff l l).mpr rfl

theorem attrCmpParts_eq_iff (x y : String × String) :
    attrCmpParts x y = .eq ↔ x = y := by
  unfold attrCmpParts
  by_cases hp : x.1 = y.1
  · rw [if_neg (not_not_intro hp), cmpChars_eq_iff]
    constructor
    · intro h
      exact Prod.ext hp (string_data_inj.mpr h)
    · intro h
      rw [h]
  · rw [if_pos hp]
    have hccmp : cmpChars x.1.data y.1.data ≠ .eq := by
      rw [Ne, cmpChars_eq_iff]
      intro hd
      exact hp (string_data_inj.mpr hd)
    constructor
    · intro h
      split_ifs at h
      all_goals first
        | exact absurd h (by decide)
        | exact absurd h hccmp
    · intro h
      exact absurd (congrArg Prod.fst h) hp

theorem attrCmpParts_swap (x y : String × String) :
    attrCmpParts y x = (attrCmpParts x y).swap := by
  unfold attrCmpParts
  split_ifs <;>
    first
      | rfl
      | (exact cmpChars_swap _ _)
      | simp_all

theorem attrCmpParts_lt_trans (x y z : String × String)
    (hxy : attrCmpParts x y = .lt) (hyz : attrCmpParts y z = .lt) :
    attrCmpParts x z = .lt := by
  unfold attrCmpParts at hxy hyz ⊢
  by_cases hp1 : x.1 = y.1
  · rw [if_neg (not_not_intro hp1)] at hxy
    by_cases hp2 : y.1 = z.1
    · rw [if_neg (not_not_intro hp2)] at hyz
      rw [if_neg (not_not_intro (hp1.trans hp2))]
      exact cmpChars_lt_trans _ _ _ hxy hyz
    · have hxz : ¬ x.1 = z.1 := fun h => hp2 (hp1.symm.trans h)
      rw [if_pos hxz, hp1]
      rw [if_pos hp2] at hyz
      exact hyz
  · rw [if_pos hp1] at hxy
    by_cases hx : x.1 = ""
    · have hyne : y.1 ≠ "" := fun hy => hp1 (hx.trans hy.symm)
      have hzne : z.1 ≠ "" := by
        intro hz
        by_cases hp2 : y.1 = z.1
        · exact hyne (hp2.trans hz)
        · rw [if_pos hp2, if_neg hyne, if_pos hz] at hyz
          exact absurd hyz (by simp)
      have hxz : ¬ x.1 = z.1 := fun h => hzne (h.symm.trans hx)
      rw [if_pos hxz, if_pos hx]
    · rw [if_neg hx] at hxy
      by_cases hy : y.1 = ""
      · rw [if_pos hy] at hxy
        exact absurd hxy (by simp)
      · rw [if_neg hy] at hxy
        by_cases hp2 : y.1 = z.1
        · have hzne : z.1 ≠ "" := hp2 ▸ hy
          have hxz : ¬ x.1 = z.1 := by
            rw [← hp2]
            exact hp1
          rw [if_pos hxz, if_neg hx, if_neg hzne, ← hp2]
          exact hxy
        · rw [if_pos hp2, if_neg hy] at hyz
          by_cases hz : z.1 = ""
          · rw [if_pos hz] at hyz
            exact absurd hyz (by simp)
          · rw [if_neg hz] at hyz
            have hlt := cmpChars_lt_trans _ _ _ hxy hyz
            have hxz : ¬ x.1 = z.1 := by
              intro he
              rw [he, cmpChars_self] at hlt
              exact Ordering.noConfusion hlt
            rw [if_pos hxz, if_neg hx, if_neg hz]
            exact hlt

/-- Attribute names that pass the `startsWith("xmlns")` test but are neither
the default declaration `xmlns` nor a prefixed declaration `xmlns:...` (for
example `xmlnsb`) are misread as namespace declarations; the side condition
below excludes them. -/
def xmlnsClean (n : String) : Prop :=
  jsStartsWith n "xmlns" = true → n = "xmlns" ∨ jsStartsWith n "xmlns:" = true

/-- The attribute lists considered by the amended order-independence claim:
duplicate-free well-formed names, none spuriously matching the xmlns test. -/
def okNames (attrs : List (String × String)) : Prop :=
  (attrs.map Prod.fst).Nodup ∧
    ∀ n ∈ attrs.map Prod.fst, wfName n ∧ xmlnsClean n

instance (n : String) : Decidable (wfName n) := by
  unfold wfName
  infer_instance

instance (n : String) : Decidable (xmlnsClean n) := by
  unfold xmlnsClean
  infer_instance

instance (attrs : List (String × String)) : Decidable (okNames attrs) := by
  unfold okNames
  infer_instance

/-- Namespace entry contributed by one attribute, if any. -/
def nsEntry (a : String × String) : Option (String × String) :=
  if jsStartsWith a.1 "xmlns" then some (nsPrefixOf a.1, a.2) else none

/-- Namespace key contributed by one attribute name, if any. -/
def nsKey (n : String) : Option String :=
  if jsStartsWith n "xmlns" then some (nsPrefixOf n) else none

theorem xmlns_colon_struct {n : String} (w : wfName n)
    (hs : jsStartsWith n "xmlns:" = true) :
    n.data.drop 6 ≠ [] ∧ n.data = "xmlns:".data ++ n.data.drop 6 ∧
      nsPrefixOf n = ⟨n.data.drop 6⟩ := by
  have hp : "xmlns:".data <+: n.data := by
    rw [← List.isPrefixOf_iff_prefix]
    exact hs
  obtain ⟨r, hr⟩ := hp
  have hdrop : n.data.drop 6 = r := by
    rw [← hr]
    exact List.drop_left "xmlns:".data r
  have hdata : n.data = "xmlns:".data ++ n.data.drop 6 := by
    rw [hdrop, hr]
  have hcons : n.data = 'x' :: 'm' :: 'l' :: 'n' :: 's' :: ':' :: r := by
    rw [← hr]
    rfl
  have hne : n ≠ "xmlns" := by
    intro he
    have : n.data = "xmlns".data := by rw [he]
    rw [hcons] at this
    have := congrArg List.length this
    simp at this
  have hsplit2 : (splitQName n).2 = (⟨r⟩ : String) := by
    have hcolon : ':' ∈ n.data := by
      rw [hcons]
      simp
    rw [splitQName, if_pos hcolon]
    show (⟨(n.data.dropWhile (fun c => c ≠ ':')).drop 1⟩ : String) = _
    rw [hcons]
    simp [List.dropWhile]
  have hr_ne : r ≠ [] := by
    intro he
    apply w.1
    rw [hsplit2, he]
  refine ⟨by rw [hdrop]; exact hr_ne, hdata, ?_⟩
  rw [nsPrefixOf, if_neg hne]

theorem nsPrefixOf_inj {n₁ n₂ : String} (w₁ : wfName n₁) (w₂ : wfName n₂)
    (c₁ : xmlnsClean n₁) (c₂ : xmlnsClean n₂)
    (s₁ : jsStartsWith n₁ "xmlns" = true) (s₂ : jsStartsWith n₂ "xmlns" = true)
    (hne : n₁ ≠ n₂) : nsPrefixOf n₁ ≠ nsPrefixOf n₂ := by
  intro heq
  rcases c₁ s₁ with h1 | h1 <;> rcases c₂ s₂ with h2 | h2
  · exact hne (h1.trans h2.symm)
  · obtain ⟨hr2, _, hpre2⟩ := xmlns_colon_struct w₂ h2
    rw [h1, hpre2] at heq
    have : nsPrefixOf "xmlns" = ("" : String) := rfl
    rw [this] at heq
    exact hr2 (by
      have := string_data_inj.mp heq.symm
      simpa using this)
  · obtain ⟨hr1, _, hpre1⟩ := xmlns_colon_struct w₁ h1
    rw [h2, hpre1] at heq
    have : nsPrefixOf "xmlns" = ("" : String) := rfl
    rw [this] at heq
    exact hr1 (by
      have := string_data_inj.mp heq
      simpa using this)
  · obtain ⟨_, hd1, hpre1⟩ := xmlns_colon_struct w₁ h1
    obtain ⟨_, hd2, hpre2⟩ := xmlns_colon_struct w₂ h2
    rw [hpre1, hpre2] at heq
    have hdr : n₁.data.drop 6 = n₂.data.drop 6 := string_data_inj.mp heq
    apply hne
    rw [string_data_inj, hd1, hd2, hdr]

theorem keys_nodup (names : List String) (hnd : names.Nodup)
    (hok : ∀ n ∈ names, wfName n ∧ xmlnsClean n) :
    (names.filterMap nsKey).Nodup := by
  induction names with
  | nil => simp
  | cons n rest ih =>
    rw [List.nodup_cons] at hnd
    rcases hks : nsKey n with _ | p
    · rw [List.filterMap_cons_none hks]
      exact ih hnd.2 (fun m hm => hok m (List.mem_cons_of_mem n hm))
    · rw [List.filterMap_cons_some hks]
      rw [List.nodup_cons]
      constructor
      · intro hp
        obtain ⟨n', hn', hk'⟩ := List.mem_filterMap.mp hp
        have hs : jsStartsWith n "xmlns" = true ∧ p = nsPrefixOf n := by
          by_cases h : jsStartsWith n "xmlns" = true
          · rw [nsKey, if_pos h] at hks
            exact ⟨h, (Option.some.injEq _ _).mp hks |>.symm⟩
          · rw [nsKey, if_neg h] at hks
            exact Option.noConfusion hks
        have hs' : jsStartsWith n' "xmlns" = true ∧ p = nsPrefixOf n' := by
          by_cases h : jsStartsWith n' "xmlns" = true
          · rw [nsKey, if_pos h] at hk'
            exact ⟨h, (Option.some.injEq _ _).mp hk' |>.symm⟩
          · rw [nsKey, if_neg h] at hk'
            exact Option.noConfusion hk'
        have hwn := hok n (List.mem_cons_self n rest)
        have hwn' := hok n' (List.mem_cons_of_mem n hn')
        by_cases hnn : n = n'
        · exact hnd.1 (hnn ▸ hn')
        · exact nsPrefixOf_inj hwn.1 hwn'.1 hwn.2 hwn'.2 hs.1 hs'.1 hnn
            (hs.2 ▸ hs'.2 ▸ rfl)
      · exact ih hnd.2 (fun m hm => hok m (List.mem_cons_of_mem n hm))

theorem entry_keys (attrs : List (String × String)) :
    (attrs.filterMap nsEntry).map Prod.fst =
      (attrs.map Prod.fst).filterMap nsKey := by
  rw [List.map_filterMap, List.filterMap_map]
  congr 1
  funext a
  show (nsEntry a).map Prod.fst = nsKey a.1
  rw [nsEntry, nsKey]
  by_cases h : jsStartsWith a.1 "xmlns" = true
  · rw [if_pos h, if_pos h]
    rfl
  · rw [if_neg h, if_neg h]
    rfl

theorem objInsert_fresh (m : List (String × String)) (k v : String)
    (h : k ∉ m.map Prod.fst) : objInsert m k v = m ++ [(k, v)] := by
  rw [objInsert, if_neg]
  intro hany
  obtain ⟨p, hp, hk⟩ := List.any_eq_true.mp hany
  exact h (List.mem_map.mpr ⟨p, hp, by simpa using hk⟩)

theorem extract_fold (attrs : List (String × String)) :
    ∀ m : List (String × String),
      ((attrs.map Prod.fst).filterMap nsKey).Nodup →
      (∀ k ∈ (attrs.map Prod.fst).filterMap nsKey, k ∉ m.map Prod.fst) →
      attrs.foldl
        (fun m a =>
          if jsStartsWith a.1 "xmlns" then objInsert m (nsPrefixOf a.1) a.2
          else m) m
        = m ++ attrs.filterMap nsEntry := by
  induction attrs with
  | nil => intro m _ _; simp
  | cons a rest ih =>
    intro m hnd hdisj
    by_cases hs : jsStartsWith a.1 "xmlns" = true
    · have hke : nsKey a.1 = some (nsPrefixOf a.1) := by rw [nsKey, if_pos hs]
      have hee : nsEntry a = some (nsPrefixOf a.1, a.2) := by
        rw [nsEntry, if_pos hs]
      rw [List.map_cons, List.filterMap_cons_some hke] at hnd hdisj
      rw [List.nodup_cons] at hnd
      have hfresh : nsPrefixOf a.1 ∉ m.map Prod.fst :=
        hdisj _ (List.mem_cons_self _ _)
      rw [List.foldl_cons]
      simp only [if_pos hs]
      rw [objInsert_fresh m _ _ hfresh, ih (m ++ [(nsPrefixOf a.1, a.2)]) hnd.2 ?_]
      · rw [List.filterMap_cons_some hee, List.append_assoc]
        rfl
      · intro k hk
        rw [List.map_append]
        intro hmem
        rcases List.mem_append.mp hmem with h1 | h1
        · exact hdisj k (List.mem_cons_of_mem _ hk) h1
        · simp at h1
          exact hnd.1 (h1 ▸ hk)
    · have hke : nsKey a.1 = none := by rw [nsKey, if_neg hs]
      have hee : nsEntry a = none := by rw [nsEntry, if_neg hs]
      rw [List.map_cons, List.filterMap_cons_none hke] at hnd hdisj
      rw [List.foldl_cons, if_neg hs, ih m hnd hdisj,
        List.filterMap_cons_none hee]

theorem extractNamespaces_eq (attrs : List (String × String))
    (hnd : ((attrs.map Prod.fst).filterMap nsKey).Nodup) :
    extractNamespaces attrs = attrs.filterMap nsEntry := by
  rw [extractNamespaces, extract_fold attrs [] hnd (by simp)]
  rfl

theorem dispName_inj :
    Function.Injective
      (fun p : String => if p = "" then "xmlns" else "xmlns:" ++ p) := by
  intro p q h
  simp only at h
  by_cases hp : p = "" <;> by_cases hq : q = ""
  · rw [hp, hq]
  · rw [if_pos hp, if_neg hq] at h
    exfalso
    have hl := congrArg String.length h
    rw [String.length_append] at hl
    have h5 : ("xmlns" : String).length = 5 := rfl
    have h6 : ("xmlns:" : String).length = 6 := rfl
    rw [h5, h6] at hl
    omega
  · rw [if_neg hp, if_pos hq] at h
    exfalso
    have hl := congrArg String.length h
    rw [String.length_append] at hl
    have h5 : ("xmlns" : String).length = 5 := rfl
    have h6 : ("xmlns:" : String).length = 6 := rfl
    rw [h5, h6] at hl
    omega
  · rw [if_neg hp, if_neg hq] at h
    have hd := string_data_inj.mp h
    rw [String.data_append, String.data_append] at hd
    exact string_data_inj.mpr (List.append_cancel_left hd)

theorem sortedNs_eq (l₁ l₂ : List (String × String)) (hperm : l₁.Perm l₂)
    (hnd : (l₁.map Prod.fst).Nodup) :
    getSortedNamespaces l₁ = getSortedNamespaces l₂ := by
  have hnd₂ : (l₂.map Prod.fst).Nodup := ((hperm.map Prod.fst).nodup_iff).mp hnd
  unfold getSortedNamespaces
  haveI htot : IsTotal (String × String)
      (fun x y => cmpChars x.1.data y.1.data ≠ Ordering.gt) := by
    constructor
    intro x y
    by_cases ho : cmpChars x.1.data y.1.data = Ordering.gt
    · right
      show cmpChars y.1.data x.1.data ≠ Ordering.gt
      rw [cmpChars_swap x.1.data y.1.data, ho]
      decide
    · left
      exact ho
  haveI htr : IsTrans (String × String)
      (fun x y => cmpChars x.1.data y.1.data ≠ Ordering.gt) := by
    constructor
    intro x y z hxy hyz
    show cmpChars x.1.data z.1.data ≠ Ordering.gt
    rcases ho1 : cmpChars x.1.data y.1.data with _ | _ | _
    · rcases ho2 : cmpChars y.1.data z.1.data with _ | _ | _
      · rw [cmpChars_lt_trans _ _ _ ho1 ho2]
        decide
      · rw [← (cmpChars_eq_iff _ _).mp ho2, ho1]
        decide
      · exact absurd ho2 hyz
    · rw [(cmpChars_eq_iff _ _).mp ho1]
      exact hyz
    · exact absurd ho1 hxy
  have key : ∀ l : List (String × String), (l.map Prod.fst).Nodup →
      List.Pairwise
        (fun x y : String × String => cmpChars x.1.data y.1.data = .lt)
        (List.insertionSort
          (fun x y => cmpChars x.1.data y.1.data ≠ Ordering.gt)
          (l.map (fun p => (if p.1 = "" then "xmlns" else "xmlns:" ++ p.1, p.2)))) := by
    intro l hl
    have hsorted := List.sorted_insertionSort
      (fun x y : String × String => cmpChars x.1.data y.1.data ≠ Ordering.gt)
      (l.map (fun p => (if p.1 = "" then "xmlns" else "xmlns:" ++ p.1, p.2)))
    have hmapnd : ((l.map
        (fun p => (if p.1 = "" then "xmlns" else "xmlns:" ++ p.1, p.2))).map
          Prod.fst).Nodup := by
      rw [List.map_map]
      have : (Prod.fst ∘ fun p : String × String =>
          ((if p.1 = "" then "xmlns" else "xmlns:" ++ p.1), p.2)) =
          (fun p : String => if p = "" then "xmlns" else "xmlns:" ++ p) ∘
            Prod.fst := rfl
      rw [this, ← List.map_map]
      exact hl.map dispName_inj
    have hsnd : ((List.insertionSort
        (fun x y : String × String => cmpChars x.1.data y.1.data ≠ Ordering.gt)
        (l.map (fun p => (if p.1 = "" then "xmlns" else "xmlns:" ++ p.1, p.2)))).map
          Prod.fst).Nodup := by
      have hp := (List.perm_insertionSort
        (fun x y : String × String => cmpChars x.1.data y.1.data ≠ Ordering.gt)
        (l.map (fun p => (if p.1 = "" then "xmlns" else "xmlns:" ++ p.1, p.2)))).map
          Prod.fst
      exact hp.nodup_iff.mpr hmapnd
    have hpne : List.Pairwise (fun x y : String × String => x.1 ≠ y.1)
        (List.insertionSort
          (fun x y : String × String => cmpChars x.1.data y.1.data ≠ Ordering.gt)
          (l.map (fun p => (if p.1 = "" then "xmlns" else "xmlns:" ++ p.1, p.2)))) := by
      have := List.pairwise_map.mp hsnd
      exact this
    apply pairwise_combine (R := fun x y : String × String =>
        cmpChars x.1.data y.1.data ≠ Ordering.gt)
      (S := fun x y : String × String => x.1 ≠ y.1) ?_ _ hsorted hpne
    intro a b hle hne
    rcases ho : cmpChars a.1.data b.1.data with _ | _ | _
    · rfl
    · exact absurd (string_data_inj.mpr ((cmpChars_eq_iff _ _).mp ho)) hne
    · exact absurd ho hle
  apply sorted_perm_eq
    (R := fun x y : String × String => cmpChars x.1.data y.1.data = .lt)
  · intro a b hab hba
    rw [cmpChars_swap a.1.data b.1.data, hab] at hba
    exact absurd hba (by decide)
  · exact (List.perm_insertionSort _ _).trans
      ((hperm.map _).trans (List.perm_insertionSort _ _).symm)
  · exact key l₁ hnd
  · exact key l₂ hnd₂

theorem okNames_perm {a₁ a₂ : List (String × String)} (hperm : a₁.Perm a₂)
    (hok : okNames a₁) : okNames a₂ :=
  ⟨((hperm.map Prod.fst).nodup_iff).mp hok.1,
   fun n hn => hok.2 n ((hperm.map Prod.fst).mem_iff.mpr hn)⟩

theorem extract_sorted_eq (a₁ a₂ : List (String × String))
    (hperm : a₁.Perm a₂) (hok : okNames a₁) :
    getSortedNamespaces (extractNamespaces a₁) =
      getSortedNamespaces (extractNamespaces a₂) := by
  have hok₂ := okNames_perm hperm hok
  have hk₁ : ((a₁.map Prod.fst).filterMap nsKey).Nodup :=
    keys_nodup _ hok.1 hok.2
  have hk₂ : ((a₂.map Prod.fst).filterMap nsKey).Nodup :=
    keys_nodup _ hok₂.1 hok₂.2
  rw [extractNamespaces_eq a₁ hk₁, extractNamespaces_eq a₂ hk₂]
  apply sortedNs_eq
  · exact hperm.filterMap nsEntry
  · rw [entry_keys]
    exact hk₁

theorem sortedAttrs_eq (a₁ a₂ : List (String × String)) (hperm : a₁.Perm a₂)
    (hok : okNames a₁) : getSortedAttributes a₁ = getSortedAttributes a₂ := by
  unfold getSortedAttributes
  haveI htot : IsTotal (String × String)
      (fun x y => attributeCompare x.1 y.1 ≠ Ordering.gt) := by
    constructor
    intro x y
    by_cases ho : attributeCompare x.1 y.1 = Ordering.gt
    · right
      show attributeCompare y.1 x.1 ≠ Ordering.gt
      rw [attributeCompare_eq_parts, attrCmpParts_swap,
        ← attributeCompare_eq_parts, ho]
      decide
    · left
      exact ho
  haveI htr : IsTrans (String × String)
      (fun x y => attributeCompare x.1 y.1 ≠ Ordering.gt) := by
    constructor
    intro x y z hxy hyz
    show attributeCompare x.1 z.1 ≠ Ordering.gt
    rw [attributeCompare_eq_parts] at hxy hyz ⊢
    rcases ho1 : attrCmpParts (splitQName x.1) (splitQName y.1) with _ | _ | _
    · rcases ho2 : attrCmpParts (splitQName y.1) (splitQName z.1) with _ | _ | _
      · rw [attrCmpParts_lt_trans _ _ _ ho1 ho2]
        decide
      · rw [← (attrCmpParts_eq_iff _ _).mp ho2, ho1]
        decide
      · exact absurd ho2 hyz
    · rw [(attrCmpParts_eq_iff _ _).mp ho1]
      exact hyz
    · exact absurd ho1 hxy
  have key : ∀ l : List (String × String), (l.map Prod.fst).Nodup →
      (∀ n ∈ l.map Prod.fst, wfName n) →
      List.Pairwise
        (fun x y : String × String =>
          attrCmpParts (splitQName x.1) (splitQName y.1) = .lt)
        (List.insertionSort
          (fun x y => attributeCompare x.1 y.1 ≠ Ordering.gt)
          (l.filter (fun a => ¬ jsStartsWith a.1 "xmlns"))) := by
    intro l hl hwf
    have hfsub : ((l.filter (fun a => ¬ jsStartsWith a.1 "xmlns")).map
        Prod.fst).Sublist (l.map Prod.fst) :=
      (List.filter_sublist l).map Prod.fst
    have hfnd : ((l.filter (fun a => ¬ jsStartsWith a.1 "xmlns")).map
        Prod.fst).Nodup := hfsub.nodup hl
    have hpermS := List.perm_insertionSort
      (fun x y : String × String => attributeCompare x.1 y.1 ≠ Ordering.gt)
      (l.filter (fun a => ¬ jsStartsWith a.1 "xmlns"))
    have hsorted := List.sorted_insertionSort
      (fun x y : String × String => attributeCompare x.1 y.1 ≠ Ordering.gt)
      (l.filter (fun a => ¬ jsStartsWith a.1 "xmlns"))
    have hsnd : ((List.insertionSort
        (fun x y : String × String => attributeCompare x.1 y.1 ≠ Ordering.gt)
        (l.filter (fun a => ¬ jsStartsWith a.1 "xmlns"))).map Prod.fst).Nodup :=
      (hpermS.map Prod.fst).nodup_iff.mpr hfnd
    have hpne := List.pairwise_map.mp hsnd
    have hwfmem : ∀ p ∈ List.insertionSort
        (fun x y : String × String => attributeCompare x.1 y.1 ≠ Ordering.gt)
        (l.filter (fun a => ¬ jsStartsWith a.1 "xmlns")), wfName p.1 := by
      intro p hp
      have hpmem : p ∈ l.filter (fun a => ¬ jsStartsWith a.1 "xmlns") :=
        hpermS.mem_iff.mp hp
      have : p ∈ l := (List.mem_filter.mp hpmem).1
      exact hwf p.1 (List.mem_map.mpr ⟨p, this, rfl⟩)
    have hps : List.Pairwise
        (fun x y : String × String => splitQName x.1 ≠ splitQName y.1)
        (List.insertionSort
          (fun x y : String × String => attributeCompare x.1 y.1 ≠ Ordering.gt)
          (l.filter (fun a => ¬ jsStartsWith a.1 "xmlns"))) := by
      apply List.Pairwise.imp_of_mem ?_ hpne
      intro a b ha hb hne heq
      exact hne (splitQName_inj (hwfmem a ha) (hwfmem b hb) heq)
    apply pairwise_combine
      (R := fun x y : String × String => attributeCompare x.1 y.1 ≠ Ordering.gt)
      (S := fun x y : String × String => splitQName x.1 ≠ splitQName y.1)
      ?_ _ hsorted hps
    intro a b hle hne
    rw [attributeCompare_eq_parts] at hle
    rcases ho : attrCmpParts (splitQName a.1) (splitQName b.1) with _ | _ | _
    · rfl
    · exact absurd ((attrCmpParts_eq_iff _ _).mp ho) hne
    · exact absurd ho hle
  have hok₂ := okNames_perm hperm hok
  apply sorted_perm_eq
    (R := fun x y : String × String =>
      attrCmpParts (splitQName x.1) (splitQName y.1) = .lt)
  · intro a b hab hba
    rw [attrCmpParts_swap, hab] at hba
    exact absurd hba (by decide)
  · exact (List.perm_insertionSort _ _).trans
      ((hperm.filter _).trans (List.perm_insertionSort _ _).symm)
  · exact key a₁ hok.1 (fun n hn => (hok.2 n hn).1)
  · exact key a₂ hok₂.1 (fun n hn => (hok₂.2 n hn).1)

/-- The structural relation of claim C4: same shape, same tag names, same
text, attributes permuted; the original attribute lists satisfy the
well-formedness side conditions of `okNames`. -/
inductive AttrPerm : XmlNode → XmlNode → Prop where
  | text (s : String) : AttrPerm (.text s) (.text s)
  | elem (tag : String) (a₁ a₂ : List (String × String))
      (cs : List (XmlNode × XmlNode)) :
      a₁.Perm a₂ → okNames a₁ →
      (∀ p ∈ cs, AttrPerm p.1 p.2) →
      AttrPerm (.element tag a₁ (cs.map Prod.fst))
        (.element tag a₂ (cs.map Prod.snd))

theorem canonChildren_congr (cs : List (XmlNode × XmlNode))
    (h : ∀ p ∈ cs, canonicalizeNode p.1 = canonicalizeNode p.2) :
    canonicalizeChildren (cs.map Prod.fst) =
      canonicalizeChildren (cs.map Prod.snd) := by
  induction cs with
  | nil => rfl
  | cons p rest ih =>
    rw [List.map_cons, List.map_cons]
    show canonicalizeNode p.1 ++ canonicalizeChildren (rest.map Prod.fst) =
      canonicalizeNode p.2 ++ canonicalizeChildren (rest.map Prod.snd)
    rw [h p (List.mem_cons_self p rest),
      ih (fun q hq => h q (List.mem_cons_of_mem p hq))]

/-- Claim C4 (amended): `canonicalize` is attribute-order-independent for
trees whose attribute names are duplicate-free well-formed QNames none of
which spuriously matches the `startsWith("xmlns")` test (such as `xmlnsb`,
see `c4_counterexample`). -/
theorem c4_canonicalize_attr_order {t₁ t₂ : XmlNode} (h : AttrPerm t₁ t₂) :
    canonicalize t₁ = canonicalize t₂ := by
  unfold canonicalize
  induction h with
  | text s => rfl
  | elem tag a₁ a₂ cs hperm hok hcs ih =>
    show canonicalizeNode (.element tag a₁ (cs.map Prod.fst)) =
      canonicalizeNode (.element tag a₂ (cs.map Prod.snd))
    rw [canonicalizeNode, canonicalizeNode,
      extract_sorted_eq a₁ a₂ hperm hok, sortedAttrs_eq a₁ a₂ hperm hok,
      canonChildren_congr cs ih]

/-- Counterexample for C4 as frozen: the attribute name `xmlnsb` (a
well-formed name distinct from `xmlns`) is misread as a declaration of the
default namespace prefix, so the later of the two declarations wins and the
two attribute orders canonicalize differently. -/
theorem c4_counterexample :
    [("xmlns", "u1"), ("xmlnsb", "u2")].Perm
      [("xmlnsb", "u2"), ("xmlns", "u1")] ∧
    (["xmlns", "xmlnsb"] : List String).Nodup ∧
    wfName "xmlns" ∧ wfName "xmlnsb" ∧
    canonicalize
        (XmlNode.element "factura" [("xmlns", "u1"), ("xmlnsb", "u2")] []) ≠
      canonicalize
        (XmlNode.element "factura" [("xmlnsb", "u2"), ("xmlns", "u1")] []) := by
  refine ⟨?_, by decide, by decide, by decide, by decide⟩
  decide

/-- Witness for C4 at a concrete two-attribute element. -/
theorem c4_witness :
    canonicalize (XmlNode.element "a" [("b", "1"), ("c", "2")] []) =
      canonicalize (XmlNode.element "a" [("c", "2"), ("b", "1")] []) :=
  c4_canonicalize_attr_order
    (AttrPerm.elem "a" [("b", "1"), ("c", "2")] [("c", "2"), ("b", "1")] []
      (by decide) (by decide) (fun p hp => absurd hp (List.not_mem_nil p)))

end C14N

/-!
## Signature assembly (`sri-xml-signer.ts`)

Two SignedInfo builders exist in the source: the string-template
`SRIXmlSigner.createSignedInfo` (lines 207-245) and the DOM-building
`XAdESSignatureService.createSignedInfo` / `createReference`
(lines 789-901).  Both are embedded below; element trees reuse
`C14N.XmlNode`, digests and ids (computed elsewhere from crypto and
randomness) are passed in as parameters.
-/

namespace Signer

open C14N

def CANONICALIZATION_METHOD : String :=
  "http://www.w3.org/TR/2001/REC-xml-c14n-20010315"

def SIGNATURE_METHOD_RSA_SHA1 : String :=
  "http://www.w3.org/2000/09/xmldsig#rsa-sha1"

def SIGNATURE_METHOD_RSA_SHA256 : String :=
  "http://www.w3.org/2001/04/xmldsig-more#rsa-sha256"

def DIGEST_METHOD_SHA1 : String := "http://www.w3.org/2000/09/xmldsig#sha1"

def ENVELOPED_TRANSFORM : String :=
  "http://www.w3.org/2000/09/xmldsig#enveloped-signature"

def SIGNEDPROPS_TYPE : String := "http://uri.etsi.org/01903#SignedProperties"

/-- `XAdESSignatureService.createReference` (lines 852-901): a
`ds:Reference` element with `Id`, `URI` and optional `Type` attributes; a
`ds:Transforms` child is appended only when `needsTransforms` became true
(enveloped reference or SignedProperties reference), then `ds:DigestMethod`
and `ds:DigestValue`. -/
def createReference (id uri digestValue : String) (isEnveloped : Bool)
    (type : Option String) : XmlNode :=
  XmlNode.element "ds:Reference"
    ([("Id", id), ("URI", uri)] ++
      (match type with
       | some t => if t ≠ "" then [("Type", t)] else []
       | none => []))
    ((if isEnveloped then
        [XmlNode.element "ds:Transforms" []
          [XmlNode.element "ds:Transform"
            [("Algorithm", ENVELOPED_TRANSFORM)] []]]
      else if type = some SIGNEDPROPS_TYPE then
        [XmlNode.element "ds:Transforms" []
          [XmlNode.element "ds:Transform"
            [("Algorithm", CANONICALIZATION_METHOD)] []]]
      else []) ++
      [XmlNode.element "ds:DigestMethod" [("Algorithm", DIGEST_METHOD_SHA1)] [],
       XmlNode.element "ds:DigestValue" [] [XmlNode.text digestValue]])

/-- `XAdESSignatureService.createSignedInfo` (lines 789-847).
`xmlDigest` stands for `calculateEnvelopedDigest(xmlContent, algorithm)`
and `uuid` for `generateUUID()`; both are opaque inputs here. -/
def createSignedInfo (xmlDigest referenceId signedPropsId signedPropsDigest
    keyInfoId keyInfoDigest uuid : String) (sha256 : Bool) : XmlNode :=
  XmlNode.element "ds:SignedInfo" []
    [XmlNode.element "ds:CanonicalizationMethod"
      [("Algorithm", CANONICALIZATION_METHOD)] [],
     XmlNode.element "ds:SignatureMethod"
      [("Algorithm", if sha256 then SIGNATURE_METHOD_RSA_SHA256
        else SIGNATURE_METHOD_RSA_SHA1)] [],
     createReference (referenceId ++ "-SignedProperties")
       ("#" ++ signedPropsId) signedPropsDigest false (some SIGNEDPROPS_TYPE),
     createReference ("Certificate-" ++ uuid) ("#" ++ keyInfoId)
       keyInfoDigest false none,
     createReference referenceId "" xmlDigest true none]

def elemTag : XmlNode → String
  | .element t _ _ => t
  | .text _ => ""

def elemChildren : XmlNode → List XmlNode
  | .element _ _ cs => cs
  | .text _ => []

def elemAttr (name : String) : XmlNode → Option String
  | .element _ attrs _ => (attrs.find? (fun p => p.1 == name)).map Prod.snd
  | .text _ => none

def isTagged (t : String) : XmlNode → Bool
  | .element u _ _ => u == t
  | .text _ => false

def referencesOf (n : XmlNode) : List XmlNode :=
  (elemChildren n).filter (isTagged "ds:Reference")

def transformsOf (r : XmlNode) : List XmlNode :=
  (elemChildren r).filter (isTagged "ds:Transforms")

/-- Algorithm attributes of the `ds:Transform` children of the reference's
`ds:Transforms` elements. -/
def transformAlgs (r : XmlNode) : List (Option String) :=
  ((transformsOf r).map elemChildren).flatten.map (elemAttr "Algorithm")

def sriSignedInfoHeader (signedInfoId : String) : String :=
  "<ds:SignedInfo Id=\"" ++ signedInfoId ++ "\" xmlns:ds=\"http://www.w3.org/2000/09/xmldsig#\">\n      <ds:CanonicalizationMethod Algorithm=\"http://www.w3.org/TR/2001/REC-xml-c14n-20010315\">\n      </ds:CanonicalizationMethod>\n      <ds:SignatureMethod Algorithm=\"http://www.w3.org/2000/09/xmldsig#rsa-sha1\">\n      </ds:SignatureMethod>\n"

def sriPropsRefPre : String := "      <ds:Reference Id=\""

def sriPropsRefMid1 : String :=
  "\" Type=\"http://uri.etsi.org/01903#SignedProperties\" URI=\"#"

def sriPropsRefMid2 : String :=
  "\">\n        <ds:Transforms>\n          <ds:Transform Algorithm=\"http://www.w3.org/TR/2001/REC-xml-c14n-20010315\"/>\n        </ds:Transforms>\n        <ds:DigestMethod Algorithm=\"http://www.w3.org/2000/09/xmldsig#sha1\">\n        </ds:DigestMethod>\n        <ds:DigestValue>"

def sriPropsRefPost : String := "</ds:DigestValue>\n      </ds:Reference>\n"

def sriPropsRef (id spId digest : String) : String :=
  sriPropsRefPre ++ id ++ sriPropsRefMid1 ++ spId ++ sriPropsRefMid2 ++
    digest ++ sriPropsRefPost

def sriKeyRefPre : String := "      <ds:Reference URI=\"#"

def sriKeyRefMid : String :=
  "\">\n        <ds:DigestMethod Algorithm=\"http://www.w3.org/2000/09/xmldsig#sha1\">\n        </ds:DigestMethod>\n        <ds:DigestValue>"

def sriKeyRefPost : String := "</ds:DigestValue>\n      </ds:Reference>\n"

def sriKeyRef (kiId digest : String) : String :=
  sriKeyRefPre ++ kiId ++ sriKeyRefMid ++ digest ++ sriKeyRefPost

def sriDocRefPre : String := "      <ds:Reference Id=\""

def sriDocRefMid : String :=
  "\" URI=\"#comprobante\">\n        <ds:Transforms>\n          <ds:Transform Algorithm=\"http://www.w3.org/2000/09/xmldsig#enveloped-signature\">\n          </ds:Transform>\n        </ds:Transforms>\n        <ds:DigestMethod Algorithm=\"http://www.w3.org/2000/09/xmldsig#sha1\">\n        </ds:DigestMethod>\n        <ds:DigestValue>"

def sriDocRefPost : String :=
  "</ds:DigestValue>\n      </ds:Reference>\n    </ds:SignedInfo>"

def sriDocRef (refId digest : String) : String :=
  sriDocRefPre ++ refId ++ sriDocRefMid ++ digest ++ sriDocRefPost

/-- `SRIXmlSigner.createSignedInfo` (lines 207-245): the template literal,
with each interpolation hole turned into string concatenation. -/
def sriCreateSignedInfo (signedInfoId signedPropertiesRefId signedPropsId
    signedPropsDigest keyInfoId keyInfoDigest referenceId
    documentDigest : String) : String :=
  "<ds:SignedInfo Id=\"" ++ signedInfoId ++ "\" xmlns:ds=\"http://www.w3.org/2000/09/xmldsig#\">\n      <ds:CanonicalizationMethod Algorithm=\"http://www.w3.org/TR/2001/REC-xml-c14n-20010315\">\n      </ds:CanonicalizationMethod>\n      <ds:SignatureMethod Algorithm=\"http://www.w3.org/2000/09/xmldsig#rsa-sha1\">\n      </ds:SignatureMethod>\n      <ds:Reference Id=\"" ++ signedPropertiesRefId ++ "\" Type=\"http://uri.etsi.org/01903#SignedProperties\" URI=\"#" ++ signedPropsId ++ "\">\n        <ds:Transforms>\n          <ds:Transform Algorithm=\"http://www.w3.org/TR/2001/REC-xml-c14n-20010315\"/>\n        </ds:Transforms>\n        <ds:DigestMethod Algorithm=\"http://www.w3.org/2000/09/xmldsig#sha1\">\n        </ds:DigestMethod>\n        <ds:DigestValue>" ++ signedPropsDigest ++ "</ds:DigestValue>\n      </ds:Reference>\n      <ds:Reference URI=\"#" ++ keyInfoId ++ "\">\n        <ds:DigestMethod Algorithm=\"http://www.w3.org/2000/09/xmldsig#sha1\">\n        </ds:DigestMethod>\n        <ds:DigestValue>" ++ keyInfoDigest ++ "</ds:DigestValue>\n      </ds:Reference>\n      <ds:Reference Id=\"" ++ referenceId ++ "\" URI=\"#comprobante\">\n        <ds:Transforms>\n          <ds:Transform Algorithm=\"http://www.w3.org/2000/09/xmldsig#enveloped-signature\">\n          </ds:Transform>\n        </ds:Transforms>\n        <ds:DigestMethod Algorithm=\"http://www.w3.org/2000/09/xmldsig#sha1\">\n        </ds:DigestMethod>\n        <ds:DigestValue>" ++ documentDigest ++ "</ds:DigestValue>\n      </ds:Reference>\n    </ds:SignedInfo>"

def strContainsAux (sub : List Char) : List Char → Bool
  | [] => List.isPrefixOf sub []
  | c :: rest => List.isPrefixOf sub (c :: rest) || strContainsAux sub rest

/-- JS `String.prototype.includes`. -/
def strContains (s sub : String) : Bool := strContainsAux sub.data s.data

set_option maxHeartbeats 4000000
set_option maxRecDepth 100000

/-- C6: every SignedInfo built by either assembler has exactly three
Reference elements in the fixed order SignedProperties, KeyInfo, Document;
the SignedProperties Reference carries the canonicalization transform, the
Document Reference the enveloped-signature transform, and the KeyInfo
Reference has no Transforms element at all.  For the DOM builder this is
read off the element tree; for the string-template builder the output
splits into header, the three references in that order, and the KeyInfo
segment's fixed text contains no occurrence of "Transforms". -/
theorem c6_signedinfo_references (xmlDigest referenceId signedPropsId
    signedPropsDigest keyInfoId keyInfoDigest uuid signedInfoId
    signedPropertiesRefId documentDigest : String) (sha256 : Bool) :
    ((elemChildren (createSignedInfo xmlDigest referenceId signedPropsId
        signedPropsDigest keyInfoId keyInfoDigest uuid sha256)).map elemTag =
      ["ds:CanonicalizationMethod", "ds:SignatureMethod",
        "ds:Reference", "ds:Reference", "ds:Reference"]) ∧
    ((referencesOf (createSignedInfo xmlDigest referenceId signedPropsId
        signedPropsDigest keyInfoId keyInfoDigest uuid sha256)).map
        (fun r => (elemAttr "URI" r, elemAttr "Type" r,
          (transformsOf r).length, transformAlgs r)) =
      [(some ("#" ++ signedPropsId), some SIGNEDPROPS_TYPE, 1,
          [some CANONICALIZATION_METHOD]),
       (some ("#" ++ keyInfoId), none, 0, []),
       (some "", none, 1, [some ENVELOPED_TRANSFORM])]) ∧
    (sriCreateSignedInfo signedInfoId signedPropertiesRefId signedPropsId
        signedPropsDigest keyInfoId keyInfoDigest referenceId
        documentDigest =
      sriSignedInfoHeader signedInfoId ++
        sriPropsRef signedPropertiesRefId signedPropsId signedPropsDigest ++
        sriKeyRef keyInfoId keyInfoDigest ++
        sriDocRef referenceId documentDigest) ∧
    (strContains sriKeyRefPre "Transforms" = false ∧
      strContains sriKeyRefMid "Transforms" = false ∧
      strContains sriKeyRefPost "Transforms" = false) ∧
    (strContains sriPropsRefMid2
        "<ds:Transform Algorithm=\"http://www.w3.org/TR/2001/REC-xml-c14n-20010315\"/>" = true ∧
      strContains sriDocRefMid
        "<ds:Transform Algorithm=\"http://www.w3.org/2000/09/xmldsig#enveloped-signature\">" = true) := by
  refine ⟨rfl, rfl, ?_, ⟨by decide, by decide, by decide⟩, ⟨by decide, by decide⟩⟩
  have h1 : ("\" xmlns:ds=\"http://www.w3.org/2000/09/xmldsig#\">\n      <ds:CanonicalizationMethod Algorithm=\"http://www.w3.org/TR/2001/REC-xml-c14n-20010315\">\n      </ds:CanonicalizationMethod>\n      <ds:SignatureMethod Algorithm=\"http://www.w3.org/2000/09/xmldsig#rsa-sha1\">\n      </ds:SignatureMethod>\n      <ds:Reference Id=\"" : String) =
      "\" xmlns:ds=\"http://www.w3.org/2000/09/xmldsig#\">\n      <ds:CanonicalizationMethod Algorithm=\"http://www.w3.org/TR/2001/REC-xml-c14n-20010315\">\n      </ds:CanonicalizationMethod>\n      <ds:SignatureMethod Algorithm=\"http://www.w3.org/2000/09/xmldsig#rsa-sha1\">\n      </ds:SignatureMethod>\n" ++ "      <ds:Reference Id=\"" := by decide
  have h2 : ("</ds:DigestValue>\n      </ds:Reference>\n      <ds:Reference URI=\"#" : String) =
      "</ds:DigestValue>\n      </ds:Reference>\n" ++ "      <ds:Reference URI=\"#" := by decide
  have h3 : ("</ds:DigestValue>\n      </ds:Reference>\n      <ds:Reference Id=\"" : String) =
      "</ds:DigestValue>\n      </ds:Reference>\n" ++ "      <ds:Reference Id=\"" := by decide
  simp only [sriCreateSignedInfo, sriSignedInfoHeader, sriPropsRef, sriKeyRef,
    sriDocRef, sriPropsRefPre, sriPropsRefMid1, sriPropsRefMid2,
    sriPropsRefPost, sriKeyRefPre, sriKeyRefMid, sriKeyRefPost, sriDocRefPre,
    sriDocRefMid, sriDocRefPost]
  rw [h1, h2, h3]
  simp only [String.append_assoc]


/-- Big-endian base-`b` digits of `n` (most significant first), on a fuel
bound so the definition evaluates by kernel reduction; `n = 0` gives `[]`. -/
def bytesBEAux (b : Nat) (fuel n : Nat) : List Nat :=
  match fuel with
  | 0 => []
  | fuel + 1 => if n = 0 then [] else bytesBEAux b fuel (n / b) ++ [n % b]

/-- Minimal big-endian unsigned byte encoding of `n` (the encoding the
spec asks for: no leading zero byte, no sign byte). -/
def minimalBytesBE (n : Nat) : List Nat := bytesBEAux 256 (n + 1) n

/-- JS `BigInteger.prototype.toString(16)` of a positive integer, as the
list of hex digit values (minimal, most significant first). -/
def hexDigitsBE (n : Nat) : List Nat := bytesBEAux 16 (n + 1) n

theorem bytesBEAux_fuel (b : Nat) (hb : 2 ≤ b) (n f : Nat) (h : n < f) :
    bytesBEAux b f n = bytesBEAux b (n + 1) n := by
  induction n using Nat.strong_induction_on generalizing f with
  | _ n ih =>
    match f with
    | 0 => omega
    | f + 1 =>
      by_cases h0 : n = 0
      · simp [bytesBEAux, h0]
      · have hdiv : n / b < n := Nat.div_lt_self (by omega) (by omega)
        show (if n = 0 then [] else bytesBEAux b f (n / b) ++ [n % b]) =
          (if n = 0 then [] else bytesBEAux b n (n / b) ++ [n % b])
        rw [if_neg h0, if_neg h0, ih (n / b) hdiv f (by omega),
          ih (n / b) hdiv n (by omega)]

theorem bytesBE_eq (b n : Nat) (hb : 2 ≤ b) (hn : 1 ≤ n) :
    bytesBEAux b (n + 1) n = bytesBEAux b (n / b + 1) (n / b) ++ [n % b] := by
  have hdiv : n / b < n := Nat.div_lt_self (by omega) (by omega)
  show (if n = 0 then [] else bytesBEAux b n (n / b) ++ [n % b]) = _
  rw [if_neg (by omega), bytesBEAux_fuel b hb (n / b) n hdiv]

theorem minimal_step (n : Nat) (hn : 1 ≤ n) :
    minimalBytesBE n = minimalBytesBE (n / 256) ++ [n % 256] :=
  bytesBE_eq 256 n (by omega) hn

theorem hex_step (n : Nat) (hn : 1 ≤ n) :
    hexDigitsBE n = hexDigitsBE (n / 16) ++ [n % 16] :=
  bytesBE_eq 16 n (by omega) hn

theorem hexDigitsBE_lt16 (m : Nat) (h1 : 1 ≤ m) (h2 : m < 16) :
    hexDigitsBE m = [m] := by
  rw [hex_step m h1, Nat.div_eq_of_lt h2, Nat.mod_eq_of_lt h2]
  rfl

theorem minimalBytesBE_lt256 (m : Nat) (h1 : 1 ≤ m) (h2 : m < 256) :
    minimalBytesBE m = [m] := by
  rw [minimal_step m h1, Nat.div_eq_of_lt h2, Nat.mod_eq_of_lt h2]
  rfl

/-- `forge` jsbn `BigInteger.prototype.toByteArray` for a nonnegative
integer: two's-complement big-endian, so a leading `0x00` is inserted
exactly when the top bit of the leading magnitude byte is set. -/
def jsbnToByteArray (n : Nat) : List Nat :=
  if n = 0 then [0]
  else if 128 ≤ (minimalBytesBE n).headD 0 then 0 :: minimalBytesBE n
  else minimalBytesBE n

/-- Node `Buffer.from(hex, 'hex')`: consume hex digits in pairs from the
left; an incomplete trailing digit is dropped. -/
def pairHex : List Nat → List Nat
  | a :: b :: rest => (16 * a + b) :: pairHex rest
  | _ => []

/-- The odd-length guard of `createRSAKeyValue`: prepend a `0` hex digit
when the digit count is odd (applied to the exponent only). -/
def padEven (l : List Nat) : List Nat :=
  if l.length % 2 = 1 then 0 :: l else l

def b64Alphabet : List Char :=
  ['A', 'B', 'C', 'D', 'E', 'F', 'G', 'H', 'I', 'J', 'K', 'L', 'M',
   'N', 'O', 'P', 'Q', 'R', 'S', 'T', 'U', 'V', 'W', 'X', 'Y', 'Z',
   'a', 'b', 'c', 'd', 'e', 'f', 'g', 'h', 'i', 'j', 'k', 'l', 'm',
   'n', 'o', 'p', 'q', 'r', 's', 't', 'u', 'v', 'w', 'x', 'y', 'z',
   '0', '1', '2', '3', '4', '5', '6', '7', '8', '9', '+', '/']

def b64c (i : Nat) : Char := b64Alphabet.getD i '?'

def base64Enc : List Nat → List Char
  | [] => []
  | [a] => [b64c (a / 4), b64c (a % 4 * 16), '=', '=']
  | [a, b] => [b64c (a / 4), b64c (a % 4 * 16 + b / 16), b64c (b % 16 * 4), '=']
  | a :: b :: c :: rest =>
      b64c (a / 4) :: b64c (a % 4 * 16 + b / 16) ::
        b64c (b % 16 * 4 + c / 64) :: b64c (c % 64) :: base64Enc rest

/-- Standard base64 of a byte list (`forge.util.encode64` /
`Buffer.prototype.toString('base64')`). -/
def base64 (bytes : List Nat) : String := ⟨base64Enc bytes⟩

/-- Modulus value emitted by `SRIXmlSigner.createKeyInfoContent`
(lines 164-202): base64 of `publicKey.n.toByteArray()`. -/
def sriModulusB64 (n : Nat) : String := base64 (jsbnToByteArray n)

/-- Exponent emitted by `SRIXmlSigner.createKeyInfoContent`: the literal
`AQAB`, independent of the key. -/
def sriExponentB64 : String := "AQAB"

/-- Modulus bytes of `XAdESSignatureService.createRSAKeyValue`
(lines 973-1014): `Buffer.from(n.toString(16), 'hex')`, with no evenness
guard on the modulus hex string. -/
def xadesModulusBytes (n : Nat) : List Nat := pairHex (hexDigitsBE n)

def xadesModulusB64 (n : Nat) : String := base64 (xadesModulusBytes n)

/-- Exponent bytes of `createRSAKeyValue`: hex of `e`, zero-padded to even
length, then decoded in pairs. -/
def xadesExponentBytes (e : Nat) : List Nat := pairHex (padEven (hexDigitsBE e))

def xadesExponentB64 (e : Nat) : String := base64 (xadesExponentBytes e)

/-- Spec-modelled target of C7: base64 of the minimal big-endian
unsigned-integer byte encoding. -/
def specMinimalB64 (n : Nat) : String := base64 (minimalBytesBE n)

theorem pairHex_append : ∀ l : List Nat, l.length % 2 = 0 →
    ∀ l' : List Nat, pairHex (l ++ l') = pairHex l ++ pairHex l'
  | [], _, l' => rfl
  | [a], h, l' => by simp at h
  | a :: b :: rest, h, l' => by
    have hr : rest.length % 2 = 0 := by
      simp only [List.length_cons] at h
      omega
    show (16 * a + b) :: pairHex (rest ++ l') =
      ((16 * a + b) :: pairHex rest) ++ pairHex l'
    rw [pairHex_append rest hr l']
    rfl

theorem padEven_even (l : List Nat) : (padEven l).length % 2 = 0 := by
  unfold padEven
  by_cases h : l.length % 2 = 1
  · rw [if_pos h]
    simp only [List.length_cons]
    omega
  · rw [if_neg h]
    omega

theorem padEven_append_two (l : List Nat) (a b : Nat) :
    padEven (l ++ [a, b]) = padEven l ++ [a, b] := by
  unfold padEven
  by_cases h : l.length % 2 = 1
  · rw [if_pos (show (l ++ [a, b]).length % 2 = 1 by simp; omega), if_pos h]
    rfl
  · rw [if_neg (show ¬ (l ++ [a, b]).length % 2 = 1 by simp; omega), if_neg h]

/-- Key encoding identity: hex digits, padded to even count and decoded in
pairs, give exactly the minimal big-endian byte encoding. -/
theorem pairHex_padEven : ∀ n : Nat, 1 ≤ n →
    pairHex (padEven (hexDigitsBE n)) = minimalBytesBE n := by
  intro n
  induction n using Nat.strong_induction_on with
  | _ n ih =>
    intro hn
    by_cases h256 : n < 256
    · by_cases h16 : n < 16
      · rw [hexDigitsBE_lt16 n hn h16, minimalBytesBE_lt256 n hn h256]
        simp [padEven, pairHex]
      · have hx : hexDigitsBE n = [n / 16, n % 16] := by
          rw [hex_step n hn, hexDigitsBE_lt16 (n / 16) (by omega) (by omega)]
          rfl
        rw [hx, minimalBytesBE_lt256 n hn h256]
        have he : 16 * (n / 16) + n % 16 = n := by omega
        simp [padEven, pairHex, he]
    · have hdd : n / 16 / 16 = n / 256 := Nat.div_div_eq_div_mul n 16 16
      have hx : hexDigitsBE n =
          hexDigitsBE (n / 256) ++ [n / 16 % 16, n % 16] := by
        rw [hex_step n hn, hex_step (n / 16) (by omega), hdd,
          List.append_assoc]
        rfl
      rw [hx, padEven_append_two,
        pairHex_append (padEven (hexDigitsBE (n / 256)))
          (padEven_even (hexDigitsBE (n / 256))) [n / 16 % 16, n % 16],
        ih (n / 256) (by omega) (by omega), minimal_step n hn]
      have he : 16 * (n / 16 % 16) + n % 16 = n % 256 := by omega
      simp [pairHex, he]

/-- C7 (amended): for a key whose modulus has its top bit set (every real
RSA modulus), `SRIXmlSigner` emits the base64 of the two's-complement
encoding — a leading zero byte on top of the minimal encoding — and the
constant `AQAB` as exponent regardless of the key; `XAdESSignatureService`
emits the minimal encoding for the exponent always, and for the modulus
exactly when the modulus hex-digit count is even (an odd count silently
drops the final nibble). -/
theorem c7_rsa_keyvalue (n e : Nat)
    (hn : 128 ≤ (minimalBytesBE n).headD 0) (he : 1 ≤ e) :
    sriModulusB64 n = base64 (0 :: minimalBytesBE n) ∧
    sriExponentB64 = "AQAB" ∧
    xadesExponentB64 e = specMinimalB64 e ∧
    ((hexDigitsBE n).length % 2 = 0 → xadesModulusB64 n = specMinimalB64 n) := by
  have hn0 : n ≠ 0 := by
    intro h
    rw [h] at hn
    exact absurd hn (by decide)
  refine ⟨?_, rfl, ?_, ?_⟩
  · unfold sriModulusB64 jsbnToByteArray
    rw [if_neg hn0, if_pos hn]
  · unfold xadesExponentB64 specMinimalB64 xadesExponentBytes
    rw [pairHex_padEven e he]
  · intro hev
    unfold xadesModulusB64 specMinimalB64 xadesModulusBytes
    rw [← pairHex_padEven n (by omega)]
    unfold padEven
    rw [if_neg (by omega)]

/-- Witness for C7 at the toy key n = 143 (top bit set), e = 7. -/
theorem c7_witness :
    128 ≤ (minimalBytesBE 143).headD 0 ∧ (1 : Nat) ≤ 7 ∧
    (sriModulusB64 143 = base64 (0 :: minimalBytesBE 143) ∧
      sriExponentB64 = "AQAB" ∧
      xadesExponentB64 7 = specMinimalB64 7 ∧
      ((hexDigitsBE 143).length % 2 = 0 →
        xadesModulusB64 143 = specMinimalB64 143)) :=
  ⟨by decide, by decide, c7_rsa_keyvalue 143 7 (by decide) (by decide)⟩

/-- Counterexample for C7 as frozen: at n = 143, e = 7 the emitted modulus
`AI8=` (bytes 00 8F) differs from the minimal encoding `jw==` (byte 8F),
and the hardcoded exponent `AQAB` differs from the minimal encoding `Bw==`
of the key's actual exponent 7. -/
theorem c7_counterexample :
    sriModulusB64 143 ≠ specMinimalB64 143 ∧
    sriModulusB64 143 = "AI8=" ∧ specMinimalB64 143 = "jw==" ∧
    sriExponentB64 ≠ specMinimalB64 7 ∧ specMinimalB64 7 = "Bw==" :=
  ⟨by decide, by decide, by decide, by decide, by decide⟩

end Signer

/-!
## SOAP connector (`sri-connector.service.ts`)

`validarComprobante` (lines 94-153) and
`autorizacionComprobanteConEspera` (lines 209-258) are loops around remote
SOAP calls.  The remote side is modelled as an oracle indexed by call
number; `processValidarResponse` (lines 263-324) is embedded over raw
response records whose optional fields model absent JS properties (the
`Array.isArray` wrapper normalisation is modelled by the oracle already
delivering lists).  Sleeping and wall-clock time enter only through the
poll loop, where elapsed time advances by `intervalo` per sleep.
-/

namespace Connector

structure MensajeOut where
  identificador : String
  mensaje : String
  informacionAdicional : String
  tipo : String
deriving DecidableEq

structure RawMensaje where
  identificador : Option String
  mensaje : Option String
  informacionAdicional : Option String
  tipo : Option String
deriving DecidableEq

structure RawComprobante where
  claveAcceso : Option String
  mensajes : Option (List RawMensaje)
deriving DecidableEq

structure RawResult where
  estado : Option String
  comprobantes : Option (List (Option RawComprobante))
deriving DecidableEq

structure ComprobanteOut where
  claveAcceso : Option String
  mensajes : List MensajeOut
deriving DecidableEq

structure ValidarResp where
  estado : String
  comprobantes : List ComprobanteOut
deriving DecidableEq

/-- JS `x || d` on an optional string: `undefined` and `""` both fall back
to the default. -/
def jsOrStr (x : Option String) (d : String) : String :=
  match x with
  | some s => if s = "" then d else s
  | none => d

def processMensaje (m : RawMensaje) : MensajeOut :=
  ⟨jsOrStr m.identificador "", jsOrStr m.mensaje "",
    jsOrStr m.informacionAdicional "", jsOrStr m.tipo "ERROR"⟩

def processComprobante (c : RawComprobante) : ComprobanteOut :=
  ⟨c.claveAcceso, (c.mensajes.getD []).map processMensaje⟩

/-- `SRIConnectorService.processValidarResponse` (lines 263-324): estado
defaults to `DEVUELTA`, absent comprobantes give `[]`, null entries are
skipped. -/
def processValidarResponse (r : RawResult) : ValidarResp :=
  ⟨jsOrStr r.estado "DEVUELTA",
   (r.comprobantes.getD []).filterMap (fun oc => oc.map processComprobante)⟩

/-- Outcome of one `validarComprobanteAsync` SOAP call: a parsed response,
or a thrown error classified by `isRetryableError`. -/
inductive Intento where
  | respuesta (r : RawResult)
  | fallo (retryable : Bool)
deriving DecidableEq

inductive VResult where
  | exito (r : ValidarResp)
  | excepcion
  | agotado
deriving DecidableEq

/-- The `for (attempt = 1; attempt <= maxRetries; ...)` loop of
`validarComprobante`: `fuel` is the number of attempts still allowed,
`calls` the number of SOAP calls already made.  `RECIBIDA` and `DEVUELTA`
return; any other estado falls through to the next attempt; a retryable
failure retries unless it was the last allowed attempt; a non-retryable
failure is rethrown (`excepcion`); running out of attempts throws the
aggregate error (`agotado`). -/
def validarGo (outcome : Nat → Intento) : Nat → Nat → VResult × Nat
  | 0, calls => (VResult.agotado, calls)
  | fuel + 1, calls =>
    match outcome (calls + 1) with
    | .respuesta raw =>
      if (processValidarResponse raw).estado = "RECIBIDA" then
        (VResult.exito (processValidarResponse raw), calls + 1)
      else if (processValidarResponse raw).estado = "DEVUELTA" then
        (VResult.exito (processValidarResponse raw), calls + 1)
      else validarGo outcome fuel (calls + 1)
    | .fallo retryable =>
      if retryable then
        (if fuel = 0 then (VResult.agotado, calls + 1)
         else validarGo outcome fuel (calls + 1))
      else (VResult.excepcion, calls + 1)

/-- `SRIConnectorService.validarComprobante` (lines 94-153), returning the
result together with how many SOAP calls were made. -/
def validarComprobante (outcome : Nat → Intento) (maxRetries : Nat) :
    VResult × Nat :=
  validarGo outcome maxRetries 0

theorem validarGo_reach (outcome : Nat → Intento) (raw : RawResult)
    (hdev : (processValidarResponse raw).estado = "DEVUELTA") :
    ∀ (m fuel calls : Nat), m + 1 ≤ fuel →
    (∀ i, calls + 1 ≤ i → i ≤ calls + m → outcome i = Intento.fallo true) →
    outcome (calls + m + 1) = Intento.respuesta raw →
    validarGo outcome fuel calls =
      (VResult.exito (processValidarResponse raw), calls + m + 1) := by
  intro m
  induction m with
  | zero =>
    intro fuel calls hfuel hfail hresp
    match fuel, hfuel with
    | fuel + 1, _ =>
      rw [show calls + 0 + 1 = calls + 1 by omega] at hresp
      simp only [validarGo, hresp]
      rw [if_neg (by rw [hdev]; decide), if_pos hdev]
  | succ m ih =>
    intro fuel calls hfuel hfail hresp
    match fuel, hfuel with
    | fuel + 1, hfuel =>
      have hf1 : outcome (calls + 1) = Intento.fallo true :=
        hfail (calls + 1) (by omega) (by omega)
      simp only [validarGo, hf1, if_pos rfl]
      rw [if_neg (by omega : ¬ fuel = 0)]
      have hgoal := ih fuel (calls + 1) (by omega)
        (fun i h1 h2 => hfail i (by omega) (by omega))
        (by rw [show calls + 1 + m + 1 = calls + (m + 1) + 1 by omega]
            exact hresp)
      rw [hgoal, show calls + 1 + m + 1 = calls + (m + 1) + 1 by omega,
        if_pos trivial]

/-- C8: if the first `k - 1` reception attempts fail with retryable
transport errors, and attempt `k ≤ maxRetries` gets a response whose
processed estado is `DEVUELTA`, then `validarComprobante` returns that
rejected response (with its processed message list) after exactly `k` SOAP
calls — whatever the oracle would answer on later calls, so no further
reception attempt is performed; a `DEVUELTA` classification itself is
never retried, only retryable failures are. -/
theorem c8_devuelta_terminal (outcome : Nat → Intento) (maxRetries k : Nat)
    (raw : RawResult) (h1 : 1 ≤ k) (hk : k ≤ maxRetries)
    (hfail : ∀ i, 1 ≤ i → i < k → outcome i = Intento.fallo true)
    (hresp : outcome k = Intento.respuesta raw)
    (hdev : (processValidarResponse raw).estado = "DEVUELTA") :
    validarComprobante outcome maxRetries =
      (VResult.exito (processValidarResponse raw), k) := by
  have := validarGo_reach outcome raw hdev (k - 1) maxRetries 0
    (by omega) (fun i hi1 hi2 => hfail i (by omega) (by omega))
    (by rw [show 0 + (k - 1) + 1 = k by omega]; exact hresp)
  rw [show 0 + (k - 1) + 1 = k by omega] at this
  exact this

def c8RawW : RawResult :=
  ⟨some "DEVUELTA",
   some [some ⟨some "0000000001", some [⟨some "45", some "ERROR SECUENCIAL",
     none, some "ERROR"⟩]⟩]⟩

def c8OutcomeW : Nat → Intento :=
  fun i => if i = 1 then Intento.fallo true else Intento.respuesta c8RawW

/-- Witness for C8: one retryable failure, then a `DEVUELTA` response on
the second of three allowed attempts. -/
theorem c8_witness :
    validarComprobante c8OutcomeW 3 =
      (VResult.exito (processValidarResponse c8RawW), 2) :=
  c8_devuelta_terminal c8OutcomeW 3 2 c8RawW (by decide) (by decide)
    (fun i hi1 hi2 => by
      have hi : i = 1 := by omega
      rw [hi]
      rfl)
    rfl rfl


structure Autorizacion where
  estado : String
deriving DecidableEq

structure AutorizacionResponse where
  claveAccesoConsultada : String
  numeroComprobantes : Nat
  autorizaciones : List Autorizacion
deriving DecidableEq

/-- Outcome of one `autorizacionComprobante` call: a processed response,
or a thrown error. -/
inductive PollOutcome where
  | ok (r : AutorizacionResponse)
  | err (msg : String)
deriving DecidableEq

/-- The terminal-state list of line 223. -/
def terminalStates : List String := ["AUTORIZADO", "NO AUTORIZADO", "RECHAZADO"]

/-- The response carries a first autorización in a terminal state. -/
def terminalResp (r : AutorizacionResponse) : Bool :=
  match r.autorizaciones with
  | a :: _ => terminalStates.contains a.estado
  | [] => false

/-- The response makes the loop keep polling: first autorización pending,
or no autorización records at all. -/
def pendingResp (r : AutorizacionResponse) : Bool :=
  match r.autorizaciones with
  | a :: _ => a.estado == "EN PROCESAMIENTO"
  | [] => true

/-- The `while (Date.now() - tiempoInicio < maxEspera)` loop of
`autorizacionComprobanteConEspera` (lines 209-258): `k` numbers the calls,
`elapsed` the milliseconds spent sleeping; each `sleep(intervalo)` adds
`intervalo`.  The fuel-0 arm is unreachable when the loop is entered with
more fuel than `maxEspera` and `intervalo ≥ 1`. -/
def conEsperaGo (oracle : Nat → PollOutcome) (claveAcceso : String)
    (maxEspera intervalo : Nat) :
    Nat → Nat → Nat → Except String AutorizacionResponse
  | 0, _, elapsed =>
    if elapsed < maxEspera then Except.error "fuel exhausted"
    else Except.error
      ("Timeout esperando autorización del comprobante " ++ claveAcceso)
  | fuel + 1, k, elapsed =>
    if elapsed < maxEspera then
      match oracle k with
      | .ok r =>
        match r.autorizaciones with
        | a :: _ =>
          if terminalStates.contains a.estado then Except.ok r
          else if a.estado = "EN PROCESAMIENTO" then
            conEsperaGo oracle claveAcceso maxEspera intervalo fuel (k + 1)
              (elapsed + intervalo)
          else Except.ok r
        | [] =>
          conEsperaGo oracle claveAcceso maxEspera intervalo fuel (k + 1)
            (elapsed + intervalo)
      | .err m =>
        if elapsed + intervalo < maxEspera then
          conEsperaGo oracle claveAcceso maxEspera intervalo fuel (k + 1)
            (elapsed + intervalo)
        else Except.error m
    else Except.error
      ("Timeout esperando autorización del comprobante " ++ claveAcceso)

/-- `SRIConnectorService.autorizacionComprobanteConEspera`: enter the loop
at call 1 with no time elapsed.  `maxEspera + 1` fuel bounds the number of
iterations because each non-returning iteration sleeps `intervalo ≥ 1`. -/
def autorizacionComprobanteConEspera (oracle : Nat → PollOutcome)
    (claveAcceso : String) (maxEspera intervalo : Nat) :
    Except String AutorizacionResponse :=
  conEsperaGo oracle claveAcceso maxEspera intervalo (maxEspera + 1) 1 0

theorem conEsperaGo_ok_terminal (oracle : Nat → PollOutcome) (clave : String)
    (maxEspera intervalo : Nat)
    (hcontract : ∀ i ri, oracle i = PollOutcome.ok ri →
      terminalResp ri = true ∨ pendingResp ri = true) :
    ∀ fuel k elapsed r,
      conEsperaGo oracle clave maxEspera intervalo fuel k elapsed =
        Except.ok r →
      terminalResp r = true := by
  intro fuel
  induction fuel with
  | zero =>
    intro k elapsed r h
    simp only [conEsperaGo] at h
    split at h
    · exact Except.noConfusion h
    · exact Except.noConfusion h
  | succ fuel ih =>
    intro k elapsed r h
    simp only [conEsperaGo] at h
    by_cases he : elapsed < maxEspera
    · rw [if_pos he] at h
      rcases ho : oracle k with ⟨r1⟩ | ⟨m⟩
      · simp only [ho] at h
        rcases haut : r1.autorizaciones with _ | ⟨a, rest⟩
        · simp only [haut] at h
          exact ih _ _ _ h
        · simp only [haut] at h
          by_cases hterm : terminalStates.contains a.estado = true
          · rw [if_pos hterm] at h
            injection h with h2
            rw [← h2]
            simp only [terminalResp, haut]
            exact hterm
          · rw [if_neg hterm] at h
            by_cases hep : a.estado = "EN PROCESAMIENTO"
            · rw [if_pos hep] at h
              exact ih _ _ _ h
            · rcases hcontract k r1 ho with ht | hp
              · simp only [terminalResp, haut] at ht
                exact absurd ht hterm
              · simp only [pendingResp, haut, beq_iff_eq] at hp
                exact absurd hp hep
      · simp only [ho] at h
        split at h
        · exact ih _ _ _ h
        · exact Except.noConfusion h
    · rw [if_neg he] at h
      exact Except.noConfusion h

theorem conEsperaGo_first_terminal (oracle : Nat → PollOutcome)
    (clave : String) (maxEspera intervalo : Nat) (r : AutorizacionResponse)
    (hterm : terminalResp r = true) :
    ∀ m fuel k elapsed,
      (∀ i, k ≤ i → i < k + m →
        ∃ ri, oracle i = PollOutcome.ok ri ∧ pendingResp ri = true) →
      oracle (k + m) = PollOutcome.ok r →
      elapsed + m * intervalo < maxEspera →
      m + 1 ≤ fuel →
      conEsperaGo oracle clave maxEspera intervalo fuel k elapsed =
        Except.ok r := by
  intro m
  induction m with
  | zero =>
    intro fuel k elapsed hpend hK htime hfuel
    match fuel, hfuel with
    | fuel + 1, _ =>
      have he : elapsed < maxEspera := by omega
      rw [show k + 0 = k by omega] at hK
      simp only [conEsperaGo, if_pos he, hK]
      rcases haut : r.autorizaciones with _ | ⟨a, rest⟩
      · simp only [terminalResp, haut] at hterm
        exact Bool.noConfusion hterm
      · simp only [haut]
        have hc : terminalStates.contains a.estado = true := by
          simp only [terminalResp, haut] at hterm
          exact hterm
        rw [if_pos hc]
  | succ m ih =>
    intro fuel k elapsed hpend hK htime hfuel
    match fuel, hfuel with
    | fuel + 1, hfuel =>
      have hmul : (m + 1) * intervalo = m * intervalo + intervalo :=
        Nat.succ_mul m intervalo
      have he : elapsed < maxEspera := by omega
      obtain ⟨r1, hr1, hp1⟩ := hpend k (by omega) (by omega)
      simp only [conEsperaGo, if_pos he, hr1]
      rcases haut : r1.autorizaciones with _ | ⟨a, rest⟩
      · simp only [haut]
        exact ih fuel (k + 1) (elapsed + intervalo)
          (fun i h1 h2 => hpend i (by omega) (by omega))
          (by rw [show k + 1 + m = k + (m + 1) by omega]; exact hK)
          (by omega) (by omega)
      · simp only [haut]
        have hep : a.estado = "EN PROCESAMIENTO" := by
          simp only [pendingResp, haut, beq_iff_eq] at hp1
          exact hp1
        rw [if_neg (by rw [hep]; decide), if_pos hep]
        exact ih fuel (k + 1) (elapsed + intervalo)
          (fun i h1 h2 => hpend i (by omega) (by omega))
          (by rw [show k + 1 + m = k + (m + 1) by omega]; exact hK)
          (by omega) (by omega)

theorem conEsperaGo_timeout (oracle : Nat → PollOutcome) (clave : String)
    (maxEspera intervalo : Nat) (hint : 1 ≤ intervalo)
    (hpend : ∀ i, ∃ ri, oracle i = PollOutcome.ok ri ∧ pendingResp ri = true) :
    ∀ fuel k elapsed, maxEspera + 1 ≤ elapsed + fuel →
      conEsperaGo oracle clave maxEspera intervalo fuel k elapsed =
        Except.error
          ("Timeout esperando autorización del comprobante " ++ clave) := by
  intro fuel
  induction fuel with
  | zero =>
    intro k elapsed hfe
    simp only [conEsperaGo, if_neg (by omega : ¬ elapsed < maxEspera)]
  | succ fuel ih =>
    intro k elapsed hfe
    by_cases he : elapsed < maxEspera
    · obtain ⟨r1, hr1, hp1⟩ := hpend k
      simp only [conEsperaGo, if_pos he, hr1]
      rcases haut : r1.autorizaciones with _ | ⟨a, rest⟩
      · simp only [haut]
        exact ih (k + 1) (elapsed + intervalo) (by omega)
      · simp only [haut]
        have hep : a.estado = "EN PROCESAMIENTO" := by
          simp only [pendingResp, haut, beq_iff_eq] at hp1
          exact hp1
        rw [if_neg (by rw [hep]; decide), if_pos hep]
        exact ih (k + 1) (elapsed + intervalo) (by omega)
    · simp only [conEsperaGo, if_neg he]

/-- C9: under the SRI contract (every successful poll response is terminal
or pending) and a positive poll interval, the poll loop (a) never returns
a pending response: any final `ok` result is terminal; (b) with pending
responses up to call `K - 1` and a terminal response at call `K` reached
before `maxEspera` elapses, it returns exactly that first terminal
response; (c) if every call stays pending (`EN PROCESAMIENTO` or no
records), it throws the timeout error once `maxEspera` elapses. -/
theorem c9_poll_loop (oracle : Nat → PollOutcome) (clave : String)
    (maxEspera intervalo : Nat) (hint : 1 ≤ intervalo)
    (hcontract : ∀ i ri, oracle i = PollOutcome.ok ri →
      terminalResp ri = true ∨ pendingResp ri = true) :
    (∀ r, autorizacionComprobanteConEspera oracle clave maxEspera intervalo =
        Except.ok r → terminalResp r = true) ∧
    (∀ K r, 1 ≤ K →
      (∀ i, 1 ≤ i → i < K →
        ∃ ri, oracle i = PollOutcome.ok ri ∧ pendingResp ri = true) →
      oracle K = PollOutcome.ok r → terminalResp r = true →
      (K - 1) * intervalo < maxEspera →
      autorizacionComprobanteConEspera oracle clave maxEspera intervalo =
        Except.ok r) ∧
    ((∀ i, ∃ ri, oracle i = PollOutcome.ok ri ∧ pendingResp ri = true) →
      autorizacionComprobanteConEspera oracle clave maxEspera intervalo =
        Except.error
          ("Timeout esperando autorización del comprobante " ++ clave)) := by
  refine ⟨?_, ?_, ?_⟩
  · intro r h
    exact conEsperaGo_ok_terminal oracle clave maxEspera intervalo hcontract
      _ _ _ r h
  · intro K r hK1 hpend hKo hterm htime
    have hbound : K - 1 ≤ (K - 1) * intervalo := by
      have := Nat.mul_le_mul (Nat.le_refl (K - 1)) hint
      omega
    exact conEsperaGo_first_terminal oracle clave maxEspera intervalo r hterm
      (K - 1) (maxEspera + 1) 1 0
      (fun i h1 h2 => hpend i h1 (by omega))
      (by rw [show 1 + (K - 1) = K by omega]; exact hKo)
      (by omega) (by omega)
  · intro hpend
    exact conEsperaGo_timeout oracle clave maxEspera intervalo hint hpend
      (maxEspera + 1) 1 0 (by omega)

def c9RespPend : AutorizacionResponse :=
  ⟨"0000000001", 1, [⟨"EN PROCESAMIENTO"⟩]⟩

def c9RespAut : AutorizacionResponse := ⟨"0000000001", 1, [⟨"AUTORIZADO"⟩]⟩

def c9OracleW : Nat → PollOutcome :=
  fun i => if i = 1 then PollOutcome.ok c9RespPend else PollOutcome.ok c9RespAut

/-- Witness for C9: one pending poll, then an authorized response on the
second call, with a 5-second interval and a 60-second budget. -/
theorem c9_witness :
    autorizacionComprobanteConEspera c9OracleW "0000000001" 60000 5000 =
      Except.ok c9RespAut :=
  (c9_poll_loop c9OracleW "0000000001" 60000 5000 (by decide)
    (by
      intro i ri h
      by_cases hi : i = 1
      · rw [hi] at h
        have h2 : PollOutcome.ok c9RespPend = PollOutcome.ok ri := h
        injection h2 with h3
        rw [← h3]
        right
        decide
      · simp only [c9OracleW, if_neg hi] at h
        injection h with h3
        rw [← h3]
        left
        decide)).2.1 2 c9RespAut (by decide)
    (fun i h1 h2 => ⟨c9RespPend, by
      have hi : i = 1 := by omega
      rw [hi]
      exact ⟨rfl, by decide⟩⟩)
    rfl (by decide) (by decide)

end Connector
